import Mathlib

/-!
Shallow embedding of the quicker repository's loss-detection core
(src/loss-detection/loss.detection.draft19.ts) and of the header handler
(src/utilities/handlers/header.handler.ts), together with proofs about the
claims of the specification.

Conventions of the embedding:
* JavaScript millisecond timestamps and RTT values are rationals.
* Bignum packet numbers are naturals; the per-space sent-packet record
  (a JS object keyed by the padded hex packet number) is an association
  list in insertion order, which is the enumeration order of Object.keys
  for such string keys.
* The two counters that are incremented and decremented are integers,
  since the source never clamps them at zero.
* Event emission is modelled by returning the list of emitted events.
-/

/-- The three packet number spaces (enum kPacketNumberSpace). -/
inductive KPacketNumberSpace : Type
  | initial
  | handshake
  | applicationData
deriving DecidableEq, Repr

/-- A value per packet number space; the source keeps arrays indexed 0..2. -/
structure PerSpace (α : Type) : Type where
  atInitial : α
  atHandshake : α
  atApplicationData : α
deriving DecidableEq, Repr

def PerSpace.get {α : Type} (x : PerSpace α) : KPacketNumberSpace → α
  | .initial => x.atInitial
  | .handshake => x.atHandshake
  | .applicationData => x.atApplicationData

def PerSpace.set {α : Type} (x : PerSpace α) : KPacketNumberSpace → α → PerSpace α
  | .initial, v => { x with atInitial := v }
  | .handshake, v => { x with atHandshake := v }
  | .applicationData, v => { x with atApplicationData := v }

/-- Packet types of base.packet.ts as used by the loss detector. -/
inductive PacketType : Type
  | versionNegotiation
  | initial
  | retry
  | handshake
  | protected0RTT
  | protected1RTT
deriving DecidableEq, Repr

/-- The slice of BasePacket the loss detector reads.  The methods
isRetransmittable() and isHandshake() of base.packet.ts (whose source is a
collaborator of the specified core) are abstracted as boolean fields. -/
structure BasePacket : Type where
  pn : ℕ
  packetType : PacketType
  isRetransmittable : Bool
  isHandshake : Bool
deriving DecidableEq, Repr

/-- interface SentPacket of loss.detection.draft19.ts. -/
structure SentPacket : Type where
  packet : BasePacket
  time : ℚ
  isRetransmittable : Bool
deriving DecidableEq, Repr

/-- The RTT estimator state (rtt.measurement.ts collaborator). -/
structure RttState : Type where
  latestRtt : ℚ
  smoothedRtt : ℚ
  rttVar : ℚ
  minRtt : Option ℚ
  maxAckDelay : ℚ
deriving DecidableEq, Repr

/-- Encryption levels carried by an ACK frame (crypto.context.ts). -/
inductive EncryptionLevel : Type
  | levelInitial
  | levelZeroRTT
  | levelHandshake
  | levelOneRTT
deriving DecidableEq, Repr

/-- The narrow ACK-frame interface the loss detector consumes:
largest acknowledged, ack delay, the packet numbers unfolded from the ACK
ranges (determineAckedPacketNumbers), and the encryption level. -/
structure AckFrame : Type where
  largestAcknowledged : ℕ
  ackDelay : ℚ
  ackedPacketNumbers : List ℕ
  cryptoLevel : Option EncryptionLevel
deriving DecidableEq, Repr

/-- Events emitted by the loss detector (enum QuicLossDetectionEvents), plus
an explicit trace marker for the rttMeasurer.updateRTT call. -/
inductive LDEvent : Type
  | packetAcked (p : BasePacket)
  | packetsLost (ps : List BasePacket)
  | retransmitPacketEvent (p : BasePacket)
  | rttUpdated
deriving DecidableEq, Repr

/-- The mutable state of class QuicLossDetection.  The alarm is modelled
as an optional absolute deadline (none = not running). -/
structure LDState : Type where
  lossDetectionAlarm : Option ℚ
  cryptoCount : ℕ
  ptoCount : ℕ
  timeOfLastSentAckElicitingPacket : ℚ
  timeOfLastSentCryptoPacket : ℚ
  largestAckedPacket : PerSpace ℕ
  lossTime : PerSpace ℚ
  sentPackets : PerSpace (List (ℕ × SentPacket))
  ackElicitingPacketsOutstanding : ℤ
  cryptoOutstanding : ℤ
  rtt : RttState
deriving DecidableEq, Repr

/-- kPacketThreshold = 3 (used on the Bignum side, hence an integer). -/
def kPacketThreshold : ℤ := 3

/-- kTimeThreshold = 9/8. -/
def kTimeThreshold : ℚ := 9 / 8

/-- kGranularity = 50 ms. -/
def kGranularity : ℚ := 50

/-- kInitialRTT = 100 ms. -/
def kInitialRTT : ℚ := 100

/-- Property lookup in a sent-packet record: first entry with the key. -/
def lookupSent (m : List (ℕ × SentPacket)) (pn : ℕ) : Option SentPacket :=
  (m.find? (fun kv => kv.1 == pn)).map (fun kv => kv.2)

/-- The JS delete of a property: drop every entry carrying the key. -/
def eraseSent (m : List (ℕ × SentPacket)) (pn : ℕ) : List (ℕ × SentPacket) :=
  m.filter (fun kv => kv.1 != pn)

/-- Object.keys of a sent-packet record. -/
def keysOf (m : List (ℕ × SentPacket)) : List ℕ :=
  m.map Prod.fst

/-- findPacketSpaceFromPacket: Handshake and Initial packets to their
namesake spaces, every other type to ApplicationData. -/
def findPacketSpaceFromPacket (p : BasePacket) : KPacketNumberSpace :=
  match p.packetType with
  | .handshake => .handshake
  | .initial => .initial
  | _ => .applicationData

/-- findPacketSpaceFromAckFrame, keyed on the frame's encryption level. -/
def findPacketSpaceFromAckFrame (a : AckFrame) : KPacketNumberSpace :=
  match a.cryptoLevel with
  | some .levelHandshake => .handshake
  | some .levelInitial => .initial
  | _ => .applicationData

/-- getEarliestLossTime: starts from the Initial space and scans Handshake
then ApplicationData, ignoring unset (zero) loss times. -/
def getEarliestLossTime (s : LDState) : ℚ × KPacketNumberSpace :=
  let step := fun (acc : ℚ × KPacketNumberSpace) (pnSpace : KPacketNumberSpace) =>
    if s.lossTime.get pnSpace ≠ 0 ∧ (acc.1 = 0 ∨ s.lossTime.get pnSpace < acc.1) then
      (s.lossTime.get pnSpace, pnSpace)
    else acc
  step (step (s.lossTime.get .initial, .initial) .handshake) .applicationData

/-- setLossDetectionAlarm.  The source also assigns a variable
time = timeOfLastSentAckElicitingPacket (timeOfLastSentCryptoPacket in the
crypto branch) but never reads it afterwards: the alarm is started for
alarmDuration measured from the moment of the call, and only when it is
not already running. -/
def setLossDetectionAlarm (now : ℚ) (s : LDState) : LDState :=
  if s.ackElicitingPacketsOutstanding = 0 then
    { s with lossDetectionAlarm := none }
  else
    let earliestLoss := (getEarliestLossTime s).1
    let alarmDuration : ℚ :=
      if s.cryptoOutstanding ≠ 0 then
        let base := if s.rtt.smoothedRtt = 0 then kInitialRTT * 2 else s.rtt.smoothedRtt * 2
        max (base + s.rtt.maxAckDelay) kGranularity * 2 ^ s.cryptoCount
      else if earliestLoss ≠ 0 then
        earliestLoss - s.timeOfLastSentAckElicitingPacket
      else
        max (s.rtt.smoothedRtt + s.rtt.rttVar * 4 + s.rtt.maxAckDelay) kGranularity * 2 ^ s.ptoCount
    if s.lossDetectionAlarm.isSome then s
    else { s with lossDetectionAlarm := some (now + alarmDuration) }

/-- The two counter-and-timestamp updates at the head of onPacketSent
(the shadowing reassignments of the source): crypto packets bump
cryptoOutstanding and stamp timeOfLastSentCryptoPacket, retransmittable
packets bump ackElicitingPacketsOutstanding and stamp
timeOfLastSentAckElicitingPacket. -/
def onPacketSentBump (now : ℚ) (p : BasePacket) (s : LDState) : LDState :=
  let s := if p.isHandshake then
    { s with cryptoOutstanding := s.cryptoOutstanding + 1, timeOfLastSentCryptoPacket := now }
  else s
  if p.isRetransmittable then
    { s with ackElicitingPacketsOutstanding := s.ackElicitingPacketsOutstanding + 1,
             timeOfLastSentAckElicitingPacket := now }
  else s

/-- onPacketSent.  Counters and times are updated and the alarm re-armed
before the duplicate check; a packet number already present in the space
is logged as an error and not inserted (but the counter bumps stay). -/
def onPacketSent (now : ℚ) (p : BasePacket) (s : LDState) : LDState :=
  let space := findPacketSpaceFromPacket p
  let sentPacket : SentPacket := { packet := p, time := now, isRetransmittable := p.isRetransmittable }
  let s := onPacketSentBump now p s
  let s := setLossDetectionAlarm now s
  match lookupSent (s.sentPackets.get space) p.pn with
  | some _ => s
  | none =>
    { s with sentPackets :=
        s.sentPackets.set space (s.sentPackets.get space ++ [(p.pn, sentPacket)]) }

/-- removeFromSentPackets: a missing packet number is logged and ignored;
otherwise the counters are decremented according to the stored packet's
flags and the entry is deleted. -/
def removeFromSentPackets (space : KPacketNumberSpace) (pn : ℕ) (s : LDState) : LDState :=
  match lookupSent (s.sentPackets.get space) pn with
  | none => s
  | some sp =>
    let s := if sp.packet.isRetransmittable then
      { s with ackElicitingPacketsOutstanding := s.ackElicitingPacketsOutstanding - 1 }
    else s
    let s := if sp.packet.isHandshake then
      { s with cryptoOutstanding := s.cryptoOutstanding - 1 }
    else s
    { s with sentPackets := s.sentPackets.set space (eraseSent (s.sentPackets.get space) pn) }

/-- Modelled from the spec: the RTT estimator update of §4.3
(rtt.measurement.ts is not under src/).  A first sample is recognised by
smoothedRtt = 0, the check the loss detector itself uses. -/
def updateRTT (now : ℚ) (ack : AckFrame) (sp : SentPacket) (r : RttState) : RttState :=
  let latest := now - sp.time
  let minRtt := match r.minRtt with
    | none => latest
    | some m => min m latest
  let adj := latest - min ack.ackDelay r.maxAckDelay
  let adjusted := if minRtt ≤ adj then adj else latest
  if r.smoothedRtt = 0 then
    { r with latestRtt := latest, minRtt := some minRtt,
             smoothedRtt := adjusted, rttVar := adjusted / 2 }
  else
    { r with latestRtt := latest, minRtt := some minRtt,
             rttVar := 3 / 4 * r.rttVar + 1 / 4 * |r.smoothedRtt - adjusted|,
             smoothedRtt := 7 / 8 * r.smoothedRtt + 1 / 8 * adjusted }

/-- updateRtt of the loss detector: the estimator runs only when the
largest acknowledged packet is still recorded in the ACK's space and was
retransmittable; the rttUpdated trace event marks the call. -/
def updateRtt (now : ℚ) (ack : AckFrame) (s : LDState) : LDState × List LDEvent :=
  let space := findPacketSpaceFromAckFrame ack
  match lookupSent (s.sentPackets.get space) ack.largestAcknowledged with
  | some sp =>
    if sp.isRetransmittable then
      ({ s with rtt := updateRTT now ack sp s.rtt }, [.rttUpdated])
    else (s, [])
  | none => (s, [])

/-- onSentPacketAcked: emit packet-acked for retransmittable packets, then
remove the packet from its own space. -/
def onSentPacketAcked (p : BasePacket) (s : LDState) : List LDEvent × LDState :=
  let evs := if p.isRetransmittable then [LDEvent.packetAcked p] else []
  (evs, removeFromSentPackets (findPacketSpaceFromPacket p) p.pn s)

/-- determineNewlyAckedPackets: every acked packet number is looked up in
all three spaces; each hit contributes the stored packet. -/
def determineNewlyAckedPackets (s : LDState) (ack : AckFrame) : List BasePacket :=
  ack.ackedPacketNumbers.foldl (fun acc pn =>
    [KPacketNumberSpace.initial, .handshake, .applicationData].foldl (fun acc2 space =>
      match lookupSent (s.sentPackets.get space) pn with
      | some foundPacket => acc2 ++ [foundPacket.packet]
      | none => acc2) acc) []

/-- The lossDelay computed at the top of detectLostPackets:
kTimeThreshold times the larger RTT estimate, with no further flooring. -/
def lossDelay (r : RttState) : ℚ :=
  kTimeThreshold * max r.latestRtt r.smoothedRtt

/-- detectLostPackets.  The source iterates
Object.keys(this.sendPackets).forEach(...), and sendPackets names a METHOD
of the class, not the sentPackets array: a function object has no
enumerable own properties, so the loop body never runs.  The only net
effect of the call is clearing lossTime[space]; lostPackets stays empty
and no packets-lost event (nor the trailing cryptoOutstanding fixup) can
ever be produced. -/
def detectLostPackets (now : ℚ) (space : KPacketNumberSpace) (s : LDState) : List LDEvent × LDState :=
  let s := { s with lossTime := s.lossTime.set space 0 }
  let lostSendTime : ℚ := now - lossDelay s.rtt
  let lostPN : ℤ := (s.largestAckedPacket.get space : ℤ) - kPacketThreshold
  let lostPackets : List BasePacket := []
  if 0 < lostPackets.length then
    ([LDEvent.packetsLost lostPackets], s)
  else
    let _ := lostSendTime
    let _ := lostPN
    ([], s)

/-- The forEach over determineNewlyAckedPackets: onSentPacketAcked once
per newly acked packet, in list order. -/
def ackPacketsLoop : List BasePacket → LDState → List LDEvent × LDState
  | [], s => ([], s)
  | p :: l, s =>
    let step := onSentPacketAcked p s
    let r := ackPacketsLoop l step.2
    (step.1 ++ r.1, r.2)

/-- onAckReceived: raise largestAcked, maybe update the RTT, ack every
covered packet still recorded anywhere, run (the inert) loss detection for
the frame's space, zero both retry counters, re-arm the alarm. -/
def onAckReceived (now : ℚ) (ack : AckFrame) (s : LDState) : List LDEvent × LDState :=
  let space := findPacketSpaceFromAckFrame ack
  let s := { s with largestAckedPacket :=
      s.largestAckedPacket.set space (max ack.largestAcknowledged (s.largestAckedPacket.get space)) }
  let r := updateRtt now ack s
  let s := r.1
  let rttEvents := r.2
  let acked := determineNewlyAckedPackets s ack
  let folded := ackPacketsLoop acked s
  let ackEvents := folded.1
  let s := folded.2
  let det := detectLostPackets now space s
  let lostEvents := det.1
  let s := det.2
  let s := { s with cryptoCount := 0, ptoCount := 0 }
  let s := setLossDetectionAlarm now s
  (rttEvents ++ ackEvents ++ lostEvents, s)

/-- retransmitPacket: emits retransmit-packet only for retransmittable
packets. -/
def retransmitPacket (sp : SentPacket) : List LDEvent :=
  if sp.packet.isRetransmittable then [LDEvent.retransmitPacketEvent sp.packet] else []

/-- Accumulator of the probe-sending loop of sendPackets. -/
structure SendAcc : Type where
  state : LDState
  events : List LDEvent
  sendCount : ℕ
  stopped : Bool
deriving DecidableEq, Repr

/-- The while loop of sendPackets inside one space, over the snapshot of
Object.keys taken when the space is entered: every retransmittable entry
is retransmitted, removed, and counted, returning early once sendCount
reaches amount. -/
def sendPacketsInSpace (space : KPacketNumberSpace) (amount : ℕ) :
    List ℕ → ℕ → LDState → SendAcc
  | [], sendCount, s => ⟨s, [], sendCount, false⟩
  | k :: keys, sendCount, s =>
    match lookupSent (s.sentPackets.get space) k with
    | none => sendPacketsInSpace space amount keys sendCount s
    | some sp =>
      if sp.packet.isRetransmittable then
        let evs := retransmitPacket sp
        let s := removeFromSentPackets space sp.packet.pn s
        let sendCount := sendCount + 1
        if sendCount = amount then ⟨s, evs, sendCount, true⟩
        else
          let r := sendPacketsInSpace space amount keys sendCount s
          ⟨r.state, evs ++ r.events, r.sendCount, r.stopped⟩
      else sendPacketsInSpace space amount keys sendCount s

/-- sendPackets(amount): the spaces are scanned in order Initial,
Handshake, ApplicationData; the early return of the source is the stopped
flag. -/
def sendPackets (amount : ℕ) (s : LDState) : List LDEvent × LDState :=
  let r1 := sendPacketsInSpace .initial amount (keysOf (s.sentPackets.get .initial)) 0 s
  if r1.stopped then (r1.events, r1.state)
  else
    let r2 := sendPacketsInSpace .handshake amount (keysOf (r1.state.sentPackets.get .handshake)) r1.sendCount r1.state
    if r2.stopped then (r1.events ++ r2.events, r2.state)
    else
      let r3 := sendPacketsInSpace .applicationData amount (keysOf (r2.state.sentPackets.get .applicationData)) r2.sendCount r2.state
      (r1.events ++ r2.events ++ r3.events, r3.state)

/-- The forEach of retransmitAllUnackedHandshakeData inside one space,
over the snapshot of Object.keys: handshake entries are retransmitted
(the event appears only if also retransmittable) and removed. -/
def retransmitAllInSpace (space : KPacketNumberSpace) :
    List ℕ → LDState → LDState × List LDEvent
  | [], s => (s, [])
  | k :: keys, s =>
    match lookupSent (s.sentPackets.get space) k with
    | none => retransmitAllInSpace space keys s
    | some sp =>
      if sp.packet.isHandshake then
        let evs := retransmitPacket sp
        let s := removeFromSentPackets space sp.packet.pn s
        let r := retransmitAllInSpace space keys s
        (r.1, evs ++ r.2)
      else retransmitAllInSpace space keys s

/-- retransmitAllUnackedHandshakeData over the three spaces in order. -/
def retransmitAllUnackedHandshakeData (s : LDState) : LDState × List LDEvent :=
  let r1 := retransmitAllInSpace .initial (keysOf (s.sentPackets.get .initial)) s
  let r2 := retransmitAllInSpace .handshake (keysOf (r1.1.sentPackets.get .handshake)) r1.1
  let r3 := retransmitAllInSpace .applicationData (keysOf (r2.1.sentPackets.get .applicationData)) r2.1
  (r3.1, r1.2 ++ r2.2 ++ r3.2)

/-- onLossDetectionAlarm: crypto retransmission when crypto packets are
outstanding, otherwise time-threshold loss detection when a loss time is
set, otherwise a two-packet PTO probe; the alarm is always re-armed. -/
def onLossDetectionAlarm (now : ℚ) (s : LDState) : List LDEvent × LDState :=
  let earliestLossTime := (getEarliestLossTime s).1
  let space := (getEarliestLossTime s).2
  let step : List LDEvent × LDState :=
    if 0 < s.cryptoOutstanding then
      let r := retransmitAllUnackedHandshakeData s
      (r.2, { r.1 with cryptoCount := r.1.cryptoCount + 1 })
    else if earliestLossTime ≠ 0 then
      detectLostPackets now space s
    else
      let r := sendPackets 2 s
      (r.1, { r.2 with ptoCount := r.2.ptoCount + 1 })
  (step.1, setLossDetectionAlarm now step.2)

/-- The TIMEOUT handler registered on the alarm: it resets the alarm and
then runs onLossDetectionAlarm (which ends by re-arming). -/
def alarmFired (now : ℚ) (s : LDState) : List LDEvent × LDState :=
  onLossDetectionAlarm now { s with lossDetectionAlarm := none }

/-- reset(): cancel the alarm and replace the three sent-packet records
with fresh empty ones; nothing else (in particular no counter) is touched. -/
def reset (s : LDState) : LDState :=
  { s with lossDetectionAlarm := none, sentPackets := ⟨[], [], []⟩ }

/-- Number of recorded packets in one space whose packet is
retransmittable (ack-eliciting). -/
def countAE (m : List (ℕ × SentPacket)) : ℕ :=
  (m.filter (fun kv => kv.2.packet.isRetransmittable)).length

/-- Number of recorded packets in one space whose packet carries handshake
data. -/
def countHS (m : List (ℕ × SentPacket)) : ℕ :=
  (m.filter (fun kv => kv.2.packet.isHandshake)).length

/-- Ack-eliciting packets recorded across all three spaces. -/
def totalAE (s : LDState) : ℕ :=
  countAE (s.sentPackets.get .initial) + countAE (s.sentPackets.get .handshake) +
    countAE (s.sentPackets.get .applicationData)

/-- Handshake packets recorded across all three spaces. -/
def totalHS (s : LDState) : ℕ :=
  countHS (s.sentPackets.get .initial) + countHS (s.sentPackets.get .handshake) +
    countHS (s.sentPackets.get .applicationData)

/-- The counter invariant of the specification for ack-eliciting packets. -/
def ackInv (s : LDState) : Prop :=
  s.ackElicitingPacketsOutstanding = (totalAE s : ℤ)

/-- The counter invariant for crypto packets. -/
def cryptoInv (s : LDState) : Prop :=
  s.cryptoOutstanding = (totalHS s : ℤ)

/-- Each space's record has no duplicate packet-number key. -/
def nodupMaps (s : LDState) : Prop :=
  (keysOf (s.sentPackets.get .initial)).Nodup ∧
    (keysOf (s.sentPackets.get .handshake)).Nodup ∧
    (keysOf (s.sentPackets.get .applicationData)).Nodup

/-- Entries of one space are keyed by their own packet number and live in
the space their packet type maps to. -/
def placedMap (space : KPacketNumberSpace) (m : List (ℕ × SentPacket)) : Prop :=
  ∀ kv ∈ m, kv.1 = kv.2.packet.pn ∧ findPacketSpaceFromPacket kv.2.packet = space

/-- placedMap in all three spaces. -/
def placedMaps (s : LDState) : Prop :=
  placedMap .initial (s.sentPackets.get .initial) ∧
    placedMap .handshake (s.sentPackets.get .handshake) ∧
    placedMap .applicationData (s.sentPackets.get .applicationData)

instance (s : LDState) : Decidable (ackInv s) := by unfold ackInv; infer_instance

instance (s : LDState) : Decidable (cryptoInv s) := by unfold cryptoInv; infer_instance

instance (s : LDState) : Decidable (nodupMaps s) := by unfold nodupMaps; infer_instance

instance (space : KPacketNumberSpace) (m : List (ℕ × SentPacket)) :
    Decidable (placedMap space m) := by unfold placedMap; exact List.decidableBAll _ m

instance (s : LDState) : Decidable (placedMaps s) := by unfold placedMaps; infer_instance

/-- Endpoint roles (types/endpoint.type.ts). -/
inductive EndpointType : Type
  | client
  | server
deriving DecidableEq, Repr

/-- Long header packet types (packet/header/long.header.ts). -/
inductive LongHeaderType : Type
  | initial
  | retry
  | handshake
  | protected0RTT
deriving DecidableEq, Repr

/-- Modelled from the spec: TLS handshake states of crypto/qtls.ts (not
under src/); SERVER_HELLO is the server's initial allow-all state, the
only state the header handler distinguishes. -/
inductive HandshakeState : Type
  | clientHello
  | serverHello
  | handshaking
  | completed
deriving DecidableEq, Repr

/-- Connection error codes used by the header handler
(utilities/errors/quic.codes.ts). -/
inductive ConnectionErrorCode : Type
  | versionNegotiationError
  | protocolViolation
deriving DecidableEq, Repr

/-- Failures of the header handler: a QuicError closes the connection, the
transient QuickerError(IGNORE_PACKET_ERROR) only drops the datagram. -/
inductive HeaderFailure : Type
  | quicError (code : ConnectionErrorCode)
  | ignorePacket
deriving DecidableEq, Repr

/-- handleClientVersion of header.handler.ts.  The call
VersionValidation.validateVersion (a collaborator) is abstracted as the
already-computed optional negotiated version. -/
def handleClientVersion (negotiatedVersion : Option ℕ) (packetType : LongHeaderType)
    (handshakeState : HandshakeState) : Except HeaderFailure ℕ :=
  match negotiatedVersion with
  | some v => .ok v
  | none =>
    if packetType = LongHeaderType.initial then
      .error (.quicError .versionNegotiationError)
    else if packetType = LongHeaderType.protected0RTT ∨ handshakeState = HandshakeState.serverHello then
      .error .ignorePacket
    else
      .error (.quicError .protocolViolation)

/-- Result of the short-header tail of HeaderHandler.handle: the space's
new highest received number, the connection's observed spin bit, and the
corrected packet number written back into the header. -/
structure ShortHeaderResult : Type where
  highestReceivedNumber : Option ℕ
  spinBit : Bool
  packetNumber : ℕ
deriving DecidableEq, Repr

/-- The packet-number-space update of HeaderHandler.handle followed by
handleShortHeader, for a short-header packet.  The call
highestReceivedNumber.adjustNumber(pn, size) (header.properties.ts, a
collaborator) is abstracted as the argument adjustedNumber; when no
highest received number exists yet the header's own number is taken
unadjusted.  The spin bit is set only for the new highest packet: a
client stores the inverse of the received bit, a server mirrors it. -/
def processShortHeader (endpointType : EndpointType) (highestReceivedNumber : Option ℕ)
    (headerPacketNumber : ℕ) (adjustedNumber : ℕ) (receivedSpinBit : Bool)
    (currentSpinBit : Bool) : ShortHeaderResult :=
  match highestReceivedNumber with
  | none =>
    { highestReceivedNumber := some headerPacketNumber,
      spinBit := if endpointType = .client then !receivedSpinBit else receivedSpinBit,
      packetNumber := headerPacketNumber }
  | some highest =>
    if highest < adjustedNumber then
      { highestReceivedNumber := some adjustedNumber,
        spinBit := if endpointType = .client then !receivedSpinBit else receivedSpinBit,
        packetNumber := adjustedNumber }
    else
      { highestReceivedNumber := some highest,
        spinBit := currentSpinBit,
        packetNumber := adjustedNumber }

/-- A neutral RTT estimator state. -/
def rttZero : RttState :=
  { latestRtt := 0, smoothedRtt := 0, rttVar := 0, minRtt := none, maxAckDelay := 0 }

/-- An RTT state with both estimates at 100 ms. -/
def rtt100 : RttState :=
  { latestRtt := 100, smoothedRtt := 100, rttVar := 25, minRtt := some 100, maxAckDelay := 0 }

/-- An RTT state with both estimates at 40 ms. -/
def rtt40 : RttState :=
  { latestRtt := 40, smoothedRtt := 40, rttVar := 10, minRtt := some 40, maxAckDelay := 0 }

/-- A retransmittable 1-RTT packet with number 0. -/
def pkt0 : BasePacket :=
  { pn := 0, packetType := .protected1RTT, isRetransmittable := true, isHandshake := false }

/-- A retransmittable 1-RTT packet with number 1. -/
def pkt1 : BasePacket :=
  { pn := 1, packetType := .protected1RTT, isRetransmittable := true, isHandshake := false }

/-- The empty loss-detection state. -/
def emptyState : LDState :=
  { lossDetectionAlarm := none, cryptoCount := 0, ptoCount := 0,
    timeOfLastSentAckElicitingPacket := 0, timeOfLastSentCryptoPacket := 0,
    largestAckedPacket := ⟨0, 0, 0⟩, lossTime := ⟨0, 0, 0⟩,
    sentPackets := ⟨[], [], []⟩, ackElicitingPacketsOutstanding := 0,
    cryptoOutstanding := 0, rtt := rttZero }

/-- A state holding exactly packet pkt0, sent at time 0 and never acked,
in the ApplicationData space, with largestAcked[ApplicationData] = 4: by
the specification packet 0 is lost both by time threshold and by packet
threshold. -/
def stateC1 : LDState :=
  { emptyState with
    largestAckedPacket := ⟨0, 0, 4⟩,
    sentPackets := ⟨[], [], [(0, { packet := pkt0, time := 0, isRetransmittable := true })]⟩,
    ackElicitingPacketsOutstanding := 1,
    rtt := rtt100 }

/-- A state with a pending packet, nonzero counters and a running alarm. -/
def stateC2 : LDState :=
  { emptyState with
    lossDetectionAlarm := some 300,
    cryptoCount := 3, ptoCount := 4,
    sentPackets := ⟨[], [], [(0, { packet := pkt0, time := 0, isRetransmittable := true })]⟩,
    ackElicitingPacketsOutstanding := 2,
    cryptoOutstanding := 1 }

/-- A handshake-mode state: one crypto packet outstanding, no RTT sample,
alarm not running, last crypto packet sent at time 0. -/
def stateC3 : LDState :=
  { emptyState with
    sentPackets := ⟨[(0, { packet := { pn := 0, packetType := .initial, isRetransmittable := true, isHandshake := true }, time := 0, isRetransmittable := true })], [], []⟩,
    ackElicitingPacketsOutstanding := 1,
    cryptoOutstanding := 1 }

/-- A state holding only pkt0 (ack-eliciting, ApplicationData). -/
def stateC5 : LDState :=
  { emptyState with
    sentPackets := ⟨[], [], [(0, { packet := pkt0, time := 0, isRetransmittable := true })]⟩,
    ackElicitingPacketsOutstanding := 1 }

/-- A PTO-mode state: three ack-eliciting ApplicationData packets, no
crypto outstanding, no loss time set, PTO rtt estimates of scenario S5. -/
def stateC6 : LDState :=
  { emptyState with
    sentPackets := ⟨[], [],
      [(0, { packet := pkt0, time := 0, isRetransmittable := true }),
       (1, { packet := pkt1, time := 5, isRetransmittable := true }),
       (2, { packet := { pn := 2, packetType := .protected1RTT, isRetransmittable := false, isHandshake := false }, time := 9, isRetransmittable := false })]⟩,
    ackElicitingPacketsOutstanding := 2,
    rtt := { latestRtt := 100, smoothedRtt := 100, rttVar := 25, minRtt := some 100, maxAckDelay := 25 } }

/-- An ACK frame for packet 0 in the ApplicationData space. -/
def ackC7 : AckFrame :=
  { largestAcknowledged := 0, ackDelay := 10, ackedPacketNumbers := [0],
    cryptoLevel := some .levelOneRTT }

/-! Basic lemmas about the per-space store and the record operations. -/

theorem PerSpace.get_set_self {α : Type} (x : PerSpace α) (sp : KPacketNumberSpace) (v : α) :
    (x.set sp v).get sp = v := by
  cases sp <;> rfl

theorem PerSpace.get_set_ne {α : Type} (x : PerSpace α) {sp sp' : KPacketNumberSpace} (v : α)
    (h : sp' ≠ sp) : (x.set sp v).get sp' = x.get sp' := by
  cases sp <;> cases sp' <;> first | rfl | exact absurd rfl h

theorem PerSpace.set_get {α : Type} (x : PerSpace α) (sp : KPacketNumberSpace) :
    x.set sp (x.get sp) = x := by
  cases sp <;> rfl

theorem PerSpace.set_set {α : Type} (x : PerSpace α) (sp : KPacketNumberSpace) (v w : α) :
    (x.set sp v).set sp w = x.set sp w := by
  cases sp <;> rfl

theorem lookupSent_cons (kv : ℕ × SentPacket) (m : List (ℕ × SentPacket)) (pn : ℕ) :
    lookupSent (kv :: m) pn = if kv.1 = pn then some kv.2 else lookupSent m pn := by
  by_cases h : kv.1 = pn <;> simp [lookupSent, List.find?_cons, h]

theorem lookupSent_eq_none {m : List (ℕ × SentPacket)} {pn : ℕ} :
    lookupSent m pn = none ↔ pn ∉ keysOf m := by
  induction m with
  | nil => simp [lookupSent, keysOf]
  | cons kv m ih =>
    rw [lookupSent_cons]
    by_cases h : kv.1 = pn
    · simp [h, keysOf]
    · simpa [keysOf, h, Ne.symm h] using ih

theorem lookupSent_mem {m : List (ℕ × SentPacket)} {pn : ℕ} {sp : SentPacket}
    (h : lookupSent m pn = some sp) : (pn, sp) ∈ m := by
  induction m with
  | nil => simp [lookupSent] at h
  | cons kv m ih =>
    rw [lookupSent_cons] at h
    by_cases hk : kv.1 = pn
    · rw [if_pos hk] at h
      cases kv with
      | mk a b =>
        simp only [Option.some.injEq] at h
        simp only at hk
        subst hk; subst h
        exact List.mem_cons_self _ _
    · rw [if_neg hk] at h
      exact List.mem_cons_of_mem _ (ih h)

theorem keysOf_eraseSent (m : List (ℕ × SentPacket)) (pn : ℕ) :
    keysOf (eraseSent m pn) = (keysOf m).filter (fun k => k != pn) := by
  induction m with
  | nil => rfl
  | cons kv m ih =>
    by_cases h : kv.1 = pn
    · simp [eraseSent, keysOf, List.filter_cons, h] at ih ⊢
      exact ih
    · simp [eraseSent, keysOf, List.filter_cons, h] at ih ⊢
      exact ih

theorem eraseSent_of_not_mem {m : List (ℕ × SentPacket)} {pn : ℕ} (h : pn ∉ keysOf m) :
    eraseSent m pn = m := by
  apply List.filter_eq_self.mpr
  intro kv hkv
  have : kv.1 ≠ pn := fun he => h (he ▸ List.mem_map_of_mem Prod.fst hkv)
  simpa using this

theorem nodup_keysOf_eraseSent {m : List (ℕ × SentPacket)} (pn : ℕ)
    (h : (keysOf m).Nodup) : (keysOf (eraseSent m pn)).Nodup := by
  rw [keysOf_eraseSent]
  exact h.filter _

theorem lookupSent_eraseSent_self (m : List (ℕ × SentPacket)) (pn : ℕ) :
    lookupSent (eraseSent m pn) pn = none := by
  rw [lookupSent_eq_none, keysOf_eraseSent]
  simp

theorem keysOf_cons (kv : ℕ × SentPacket) (m : List (ℕ × SentPacket)) :
    keysOf (kv :: m) = kv.1 :: keysOf m := rfl

theorem eraseSent_cons_self {kv : ℕ × SentPacket} {pn : ℕ} (m : List (ℕ × SentPacket))
    (hk : kv.1 = pn) : eraseSent (kv :: m) pn = eraseSent m pn := by
  simp [eraseSent, List.filter_cons, hk]

theorem eraseSent_cons_ne {kv : ℕ × SentPacket} {pn : ℕ} (m : List (ℕ × SentPacket))
    (hk : kv.1 ≠ pn) : eraseSent (kv :: m) pn = kv :: eraseSent m pn := by
  simp [eraseSent, List.filter_cons, hk]

theorem lookupSent_eraseSent_ne {pn' pn : ℕ} (m : List (ℕ × SentPacket)) (h : pn' ≠ pn) :
    lookupSent (eraseSent m pn) pn' = lookupSent m pn' := by
  induction m with
  | nil => rfl
  | cons kv m ih =>
    by_cases hk : kv.1 = pn
    · have hne : kv.1 ≠ pn' := by
        intro he
        exact h (he ▸ hk)
      rw [eraseSent_cons_self m hk, ih, lookupSent_cons, if_neg hne]
    · rw [eraseSent_cons_ne m hk, lookupSent_cons, lookupSent_cons, ih]

theorem lookupSent_eraseSent_none {m : List (ℕ × SentPacket)} {pn : ℕ} (pn' : ℕ)
    (h : lookupSent m pn = none) : lookupSent (eraseSent m pn') pn = none := by
  rw [lookupSent_eq_none] at h ⊢
  rw [keysOf_eraseSent]
  intro hmem
  exact h (List.mem_of_mem_filter hmem)

theorem countBy_eraseSent (f : SentPacket → Bool) {m : List (ℕ × SentPacket)} {pn : ℕ}
    {sp : SentPacket} (hnd : (keysOf m).Nodup) (h : lookupSent m pn = some sp) :
    (m.filter (fun kv => f kv.2)).length =
      ((eraseSent m pn).filter (fun kv => f kv.2)).length + (if f sp then 1 else 0) := by
  induction m with
  | nil => simp [lookupSent] at h
  | cons kv m ih =>
    rw [keysOf_cons, List.nodup_cons] at hnd
    rw [lookupSent_cons] at h
    by_cases hk : kv.1 = pn
    · rw [if_pos hk] at h
      have hsp : kv.2 = sp := Option.some.inj h
      have he : eraseSent (kv :: m) pn = m := by
        rw [eraseSent_cons_self m hk]
        exact eraseSent_of_not_mem (hk ▸ hnd.1)
      rw [he]
      by_cases hf : f sp <;> simp [List.filter_cons, hsp, hf]
    · rw [if_neg hk] at h
      rw [eraseSent_cons_ne m hk]
      have hrec := ih hnd.2 h
      by_cases hf : f kv.2 <;> simp [List.filter_cons, hf] <;> omega

/-! Characterisations of the state-mutating operations. -/

theorem removeFromSentPackets_none {space : KPacketNumberSpace} {pn : ℕ} {s : LDState}
    (h : lookupSent (s.sentPackets.get space) pn = none) :
    removeFromSentPackets space pn s = s := by
  unfold removeFromSentPackets
  rw [h]

theorem removeFromSentPackets_some {space : KPacketNumberSpace} {pn : ℕ} {s : LDState}
    {sp : SentPacket} (h : lookupSent (s.sentPackets.get space) pn = some sp) :
    removeFromSentPackets space pn s =
      { s with
        sentPackets := s.sentPackets.set space (eraseSent (s.sentPackets.get space) pn),
        ackElicitingPacketsOutstanding :=
          s.ackElicitingPacketsOutstanding - (if sp.packet.isRetransmittable then 1 else 0),
        cryptoOutstanding :=
          s.cryptoOutstanding - (if sp.packet.isHandshake then 1 else 0) } := by
  unfold removeFromSentPackets
  rw [h]
  by_cases h1 : sp.packet.isRetransmittable <;> by_cases h2 : sp.packet.isHandshake <;>
    simp [h1, h2]

theorem detectLostPackets_eq (now : ℚ) (space : KPacketNumberSpace) (s : LDState) :
    detectLostPackets now space s = ([], { s with lossTime := s.lossTime.set space 0 }) := rfl

theorem setLossDetectionAlarm_eq (now : ℚ) (s : LDState) :
    setLossDetectionAlarm now s =
      { s with lossDetectionAlarm := (setLossDetectionAlarm now s).lossDetectionAlarm } := by
  unfold setLossDetectionAlarm
  split_ifs <;> rfl

theorem setLossDetectionAlarm_sentPackets (now : ℚ) (s : LDState) :
    (setLossDetectionAlarm now s).sentPackets = s.sentPackets := by
  conv_lhs => rw [setLossDetectionAlarm_eq now s]

theorem setLossDetectionAlarm_ackOut (now : ℚ) (s : LDState) :
    (setLossDetectionAlarm now s).ackElicitingPacketsOutstanding =
      s.ackElicitingPacketsOutstanding := by
  conv_lhs => rw [setLossDetectionAlarm_eq now s]

theorem setLossDetectionAlarm_cryptoOut (now : ℚ) (s : LDState) :
    (setLossDetectionAlarm now s).cryptoOutstanding = s.cryptoOutstanding := by
  conv_lhs => rw [setLossDetectionAlarm_eq now s]

theorem setLossDetectionAlarm_rtt (now : ℚ) (s : LDState) :
    (setLossDetectionAlarm now s).rtt = s.rtt := by
  conv_lhs => rw [setLossDetectionAlarm_eq now s]

theorem setLossDetectionAlarm_ptoCount (now : ℚ) (s : LDState) :
    (setLossDetectionAlarm now s).ptoCount = s.ptoCount := by
  conv_lhs => rw [setLossDetectionAlarm_eq now s]

theorem setLossDetectionAlarm_cryptoCount (now : ℚ) (s : LDState) :
    (setLossDetectionAlarm now s).cryptoCount = s.cryptoCount := by
  conv_lhs => rw [setLossDetectionAlarm_eq now s]

theorem setLossDetectionAlarm_lossTime (now : ℚ) (s : LDState) :
    (setLossDetectionAlarm now s).lossTime = s.lossTime := by
  conv_lhs => rw [setLossDetectionAlarm_eq now s]

theorem updateRtt_state_eq (now : ℚ) (ack : AckFrame) (s : LDState) :
    (updateRtt now ack s).1 = { s with rtt := (updateRtt now ack s).1.rtt } := by
  simp only [updateRtt]
  split
  · split_ifs <;> rfl
  · rfl

theorem updateRtt_sentPackets (now : ℚ) (ack : AckFrame) (s : LDState) :
    (updateRtt now ack s).1.sentPackets = s.sentPackets := by
  conv_lhs => rw [updateRtt_state_eq now ack s]

theorem updateRtt_ackOut (now : ℚ) (ack : AckFrame) (s : LDState) :
    (updateRtt now ack s).1.ackElicitingPacketsOutstanding =
      s.ackElicitingPacketsOutstanding := by
  conv_lhs => rw [updateRtt_state_eq now ack s]

theorem updateRtt_cryptoOut (now : ℚ) (ack : AckFrame) (s : LDState) :
    (updateRtt now ack s).1.cryptoOutstanding = s.cryptoOutstanding := by
  conv_lhs => rw [updateRtt_state_eq now ack s]

/-! Per-space extraction and update of the invariants. -/

theorem nodupMaps_get {s : LDState} (hnd : nodupMaps s) (space : KPacketNumberSpace) :
    (keysOf (s.sentPackets.get space)).Nodup := by
  cases space
  · exact hnd.1
  · exact hnd.2.1
  · exact hnd.2.2

theorem placedMaps_get {s : LDState} (hp : placedMaps s) (space : KPacketNumberSpace) :
    placedMap space (s.sentPackets.get space) := by
  cases space
  · exact hp.1
  · exact hp.2.1
  · exact hp.2.2

theorem totalAE_set (s : LDState) (space : KPacketNumberSpace) (m : List (ℕ × SentPacket))
    (a : ℤ) (c : ℤ) :
    totalAE { s with sentPackets := s.sentPackets.set space m,
                     ackElicitingPacketsOutstanding := a, cryptoOutstanding := c } +
        countAE (s.sentPackets.get space) =
      totalAE s + countAE m := by
  cases space <;> simp [totalAE, PerSpace.get, PerSpace.set] <;> ring

theorem totalHS_set (s : LDState) (space : KPacketNumberSpace) (m : List (ℕ × SentPacket))
    (a : ℤ) (c : ℤ) :
    totalHS { s with sentPackets := s.sentPackets.set space m,
                     ackElicitingPacketsOutstanding := a, cryptoOutstanding := c } +
        countHS (s.sentPackets.get space) =
      totalHS s + countHS m := by
  cases space <;> simp [totalHS, PerSpace.get, PerSpace.set] <;> ring

theorem nodupMaps_set {s : LDState} (hnd : nodupMaps s) (space : KPacketNumberSpace)
    {m : List (ℕ × SentPacket)} (hm : (keysOf m).Nodup) (a : ℤ) (c : ℤ) :
    nodupMaps { s with sentPackets := s.sentPackets.set space m,
                       ackElicitingPacketsOutstanding := a, cryptoOutstanding := c } := by
  obtain ⟨h1, h2, h3⟩ := hnd
  cases space <;> exact ⟨by simpa [PerSpace.get, PerSpace.set] using ‹_›, by simpa [PerSpace.get, PerSpace.set] using ‹_›, by simpa [PerSpace.get, PerSpace.set] using ‹_›⟩

theorem countAE_eraseSent {m : List (ℕ × SentPacket)} {pn : ℕ} {sp : SentPacket}
    (hnd : (keysOf m).Nodup) (h : lookupSent m pn = some sp) :
    countAE m = countAE (eraseSent m pn) + (if sp.packet.isRetransmittable then 1 else 0) := by
  unfold countAE
  exact countBy_eraseSent (fun q => q.packet.isRetransmittable) hnd h

theorem countHS_eraseSent {m : List (ℕ × SentPacket)} {pn : ℕ} {sp : SentPacket}
    (hnd : (keysOf m).Nodup) (h : lookupSent m pn = some sp) :
    countHS m = countHS (eraseSent m pn) + (if sp.packet.isHandshake then 1 else 0) := by
  unfold countHS
  exact countBy_eraseSent (fun q => q.packet.isHandshake) hnd h

theorem placedMap_eraseSent {space : KPacketNumberSpace} {m : List (ℕ × SentPacket)}
    (pn : ℕ) (h : placedMap space m) : placedMap space (eraseSent m pn) :=
  fun kv hkv => h kv (List.mem_of_mem_filter hkv)

theorem placedMaps_set {s : LDState} (hp : placedMaps s) (space : KPacketNumberSpace)
    {m : List (ℕ × SentPacket)} (hm : placedMap space m) (a : ℤ) (c : ℤ) :
    placedMaps { s with sentPackets := s.sentPackets.set space m,
                        ackElicitingPacketsOutstanding := a, cryptoOutstanding := c } := by
  obtain ⟨h1, h2, h3⟩ := hp
  cases space <;>
    exact ⟨by simpa [PerSpace.get, PerSpace.set] using ‹_›,
           by simpa [PerSpace.get, PerSpace.set] using ‹_›,
           by simpa [PerSpace.get, PerSpace.set] using ‹_›⟩

theorem removeFromSentPackets_shape (space : KPacketNumberSpace) (pn : ℕ) (s : LDState) :
    ∃ m a c, removeFromSentPackets space pn s =
      { s with sentPackets := m, ackElicitingPacketsOutstanding := a,
               cryptoOutstanding := c } := by
  cases h : lookupSent (s.sentPackets.get space) pn with
  | none =>
    exact ⟨s.sentPackets, s.ackElicitingPacketsOutstanding, s.cryptoOutstanding,
      removeFromSentPackets_none h⟩
  | some sp => exact ⟨_, _, _, removeFromSentPackets_some h⟩

theorem removeFromSentPackets_pres (space : KPacketNumberSpace) (pn : ℕ) {s : LDState}
    (hnd : nodupMaps s) :
    nodupMaps (removeFromSentPackets space pn s) ∧
      (ackInv s → ackInv (removeFromSentPackets space pn s)) ∧
      (cryptoInv s → cryptoInv (removeFromSentPackets space pn s)) ∧
      (placedMaps s → placedMaps (removeFromSentPackets space pn s)) := by
  cases h : lookupSent (s.sentPackets.get space) pn with
  | none =>
    rw [removeFromSentPackets_none h]
    exact ⟨hnd, id, id, id⟩
  | some sp =>
    rw [removeFromSentPackets_some h]
    have hndsp := nodupMaps_get hnd space
    have hAE := countAE_eraseSent hndsp h
    have hHS := countHS_eraseSent hndsp h
    refine ⟨nodupMaps_set hnd space (nodup_keysOf_eraseSent pn hndsp) _ _, ?_, ?_,
      fun hp => placedMaps_set hp space (placedMap_eraseSent pn (placedMaps_get hp space)) _ _⟩
    · intro hinv
      unfold ackInv at hinv ⊢
      have htot := totalAE_set s space (eraseSent (s.sentPackets.get space) pn)
        (s.ackElicitingPacketsOutstanding - (if sp.packet.isRetransmittable then 1 else 0))
        (s.cryptoOutstanding - (if sp.packet.isHandshake then 1 else 0))
      by_cases hb : sp.packet.isRetransmittable <;> simp [hb] at hAE htot ⊢ <;> omega
    · intro hinv
      unfold cryptoInv at hinv ⊢
      have htot := totalHS_set s space (eraseSent (s.sentPackets.get space) pn)
        (s.ackElicitingPacketsOutstanding - (if sp.packet.isRetransmittable then 1 else 0))
        (s.cryptoOutstanding - (if sp.packet.isHandshake then 1 else 0))
      by_cases hb : sp.packet.isHandshake <;> simp [hb] at hHS htot ⊢ <;> omega

/-! The probe, crypto-retransmit and ack loops only touch the sent-packet
records and the two outstanding counters; they preserve the invariants. -/

theorem sendPacketsInSpace_shape (space : KPacketNumberSpace) (amount : ℕ) (K : List ℕ) :
    ∀ (c : ℕ) (s : LDState), ∃ m a c2, (sendPacketsInSpace space amount K c s).state =
      { s with sentPackets := m, ackElicitingPacketsOutstanding := a,
               cryptoOutstanding := c2 } := by
  induction K with
  | nil => exact fun c s => ⟨s.sentPackets, _, _, rfl⟩
  | cons k K ih =>
    intro c s
    simp only [sendPacketsInSpace]
    cases h : lookupSent (s.sentPackets.get space) k with
    | none => simpa [h] using ih c s
    | some sp =>
      simp only [h]
      by_cases hr : sp.packet.isRetransmittable
      · simp only [hr, if_true]
        obtain ⟨m0, a0, c0, hrm⟩ := removeFromSentPackets_shape space sp.packet.pn s
        by_cases hstop : c + 1 = amount
        · simp only [hstop, if_true]
          exact ⟨m0, a0, c0, hrm⟩
        · simp only [hstop, if_false]
          obtain ⟨m1, a1, c1, h1⟩ := ih (c + 1) (removeFromSentPackets space sp.packet.pn s)
          refine ⟨m1, a1, c1, ?_⟩
          rw [h1, hrm]
      · simpa [hr] using ih c s

theorem retransmitAllInSpace_shape (space : KPacketNumberSpace) (K : List ℕ) :
    ∀ (s : LDState), ∃ m a c2, (retransmitAllInSpace space K s).1 =
      { s with sentPackets := m, ackElicitingPacketsOutstanding := a,
               cryptoOutstanding := c2 } := by
  induction K with
  | nil => exact fun s => ⟨s.sentPackets, _, _, rfl⟩
  | cons k K ih =>
    intro s
    simp only [retransmitAllInSpace]
    cases h : lookupSent (s.sentPackets.get space) k with
    | none => simpa [h] using ih s
    | some sp =>
      simp only [h]
      by_cases hh : sp.packet.isHandshake
      · simp only [hh, if_true]
        obtain ⟨m0, a0, c0, hrm⟩ := removeFromSentPackets_shape space sp.packet.pn s
        obtain ⟨m1, a1, c1, h1⟩ := ih (removeFromSentPackets space sp.packet.pn s)
        refine ⟨m1, a1, c1, ?_⟩
        rw [h1, hrm]
      · simpa [hh] using ih s

theorem ackPacketsLoop_shape (l : List BasePacket) :
    ∀ (s : LDState), ∃ m a c2, (ackPacketsLoop l s).2 =
      { s with sentPackets := m, ackElicitingPacketsOutstanding := a,
               cryptoOutstanding := c2 } := by
  induction l with
  | nil => exact fun s => ⟨s.sentPackets, _, _, rfl⟩
  | cons p l ih =>
    intro s
    simp only [ackPacketsLoop, onSentPacketAcked]
    obtain ⟨m0, a0, c0, hrm⟩ := removeFromSentPackets_shape (findPacketSpaceFromPacket p) p.pn s
    obtain ⟨m1, a1, c1, h1⟩ := ih (removeFromSentPackets (findPacketSpaceFromPacket p) p.pn s)
    refine ⟨m1, a1, c1, ?_⟩
    rw [h1, hrm]

theorem sendPacketsInSpace_pres (space : KPacketNumberSpace) (amount : ℕ) (K : List ℕ) :
    ∀ (c : ℕ) (s : LDState), nodupMaps s →
      nodupMaps (sendPacketsInSpace space amount K c s).state ∧
        (ackInv s → ackInv (sendPacketsInSpace space amount K c s).state) ∧
        (cryptoInv s → cryptoInv (sendPacketsInSpace space amount K c s).state) ∧
        (placedMaps s → placedMaps (sendPacketsInSpace space amount K c s).state) := by
  induction K with
  | nil => exact fun c s hnd => ⟨hnd, id, id, id⟩
  | cons k K ih =>
    intro c s hnd
    simp only [sendPacketsInSpace]
    cases h : lookupSent (s.sentPackets.get space) k with
    | none => simpa [h] using ih c s hnd
    | some sp =>
      simp only [h]
      by_cases hr : sp.packet.isRetransmittable
      · simp only [hr, if_true]
        obtain ⟨hnd1, hai1, hci1, hp1⟩ := removeFromSentPackets_pres space sp.packet.pn hnd
        by_cases hstop : c + 1 = amount
        · simp only [hstop, if_true]
          exact ⟨hnd1, hai1, hci1, hp1⟩
        · simp only [hstop, if_false]
          obtain ⟨hnd2, hai2, hci2, hp2⟩ :=
            ih (c + 1) (removeFromSentPackets space sp.packet.pn s) hnd1
          exact ⟨hnd2, fun ha => hai2 (hai1 ha), fun hc => hci2 (hci1 hc),
            fun hp => hp2 (hp1 hp)⟩
      · simpa [hr] using ih c s hnd

theorem retransmitAllInSpace_pres (space : KPacketNumberSpace) (K : List ℕ) :
    ∀ (s : LDState), nodupMaps s →
      nodupMaps (retransmitAllInSpace space K s).1 ∧
        (ackInv s → ackInv (retransmitAllInSpace space K s).1) ∧
        (cryptoInv s → cryptoInv (retransmitAllInSpace space K s).1) ∧
        (placedMaps s → placedMaps (retransmitAllInSpace space K s).1) := by
  induction K with
  | nil => exact fun s hnd => ⟨hnd, id, id, id⟩
  | cons k K ih =>
    intro s hnd
    simp only [retransmitAllInSpace]
    cases h : lookupSent (s.sentPackets.get space) k with
    | none => simpa [h] using ih s hnd
    | some sp =>
      simp only [h]
      by_cases hh : sp.packet.isHandshake
      · simp only [hh, if_true]
        obtain ⟨hnd1, hai1, hci1, hp1⟩ := removeFromSentPackets_pres space sp.packet.pn hnd
        obtain ⟨hnd2, hai2, hci2, hp2⟩ := ih (removeFromSentPackets space sp.packet.pn s) hnd1
        exact ⟨hnd2, fun ha => hai2 (hai1 ha), fun hc => hci2 (hci1 hc),
          fun hp => hp2 (hp1 hp)⟩
      · simpa [hh] using ih s hnd

theorem ackPacketsLoop_pres (l : List BasePacket) :
    ∀ (s : LDState), nodupMaps s →
      nodupMaps (ackPacketsLoop l s).2 ∧
        (ackInv s → ackInv (ackPacketsLoop l s).2) ∧
        (cryptoInv s → cryptoInv (ackPacketsLoop l s).2) ∧
        (placedMaps s → placedMaps (ackPacketsLoop l s).2) := by
  induction l with
  | nil => exact fun s hnd => ⟨hnd, id, id, id⟩
  | cons p l ih =>
    intro s hnd
    simp only [ackPacketsLoop, onSentPacketAcked]
    obtain ⟨hnd1, hai1, hci1, hp1⟩ :=
      removeFromSentPackets_pres (findPacketSpaceFromPacket p) p.pn hnd
    obtain ⟨hnd2, hai2, hci2, hp2⟩ :=
      ih (removeFromSentPackets (findPacketSpaceFromPacket p) p.pn s) hnd1
    exact ⟨hnd2, fun ha => hai2 (hai1 ha), fun hc => hci2 (hci1 hc), fun hp => hp2 (hp1 hp)⟩

/-! Insertion lemmas and invariant congruence. -/

theorem keysOf_append (m : List (ℕ × SentPacket)) (kv : ℕ × SentPacket) :
    keysOf (m ++ [kv]) = keysOf m ++ [kv.1] := by
  simp [keysOf]

theorem nodup_keysOf_append {m : List (ℕ × SentPacket)} {kv : ℕ × SentPacket}
    (hnd : (keysOf m).Nodup) (hni : kv.1 ∉ keysOf m) : (keysOf (m ++ [kv])).Nodup := by
  rw [keysOf_append, List.nodup_append]
  refine ⟨hnd, List.nodup_singleton _, ?_⟩
  intro a ha hb
  rw [List.mem_singleton.mp hb] at ha
  exact hni ha

theorem countAE_append (m : List (ℕ × SentPacket)) (kv : ℕ × SentPacket) :
    countAE (m ++ [kv]) = countAE m + (if kv.2.packet.isRetransmittable then 1 else 0) := by
  by_cases h : kv.2.packet.isRetransmittable <;> simp [countAE, List.filter_append, h]

theorem countHS_append (m : List (ℕ × SentPacket)) (kv : ℕ × SentPacket) :
    countHS (m ++ [kv]) = countHS m + (if kv.2.packet.isHandshake then 1 else 0) := by
  by_cases h : kv.2.packet.isHandshake <;> simp [countHS, List.filter_append, h]

theorem placedMap_append {space : KPacketNumberSpace} {m : List (ℕ × SentPacket)}
    {kv : ℕ × SentPacket} (h : placedMap space m) (h1 : kv.1 = kv.2.packet.pn)
    (h2 : findPacketSpaceFromPacket kv.2.packet = space) : placedMap space (m ++ [kv]) := by
  intro x hx
  rcases List.mem_append.mp hx with hx | hx
  · exact h x hx
  · rw [List.mem_singleton.mp hx]
    exact ⟨h1, h2⟩

theorem nodupMaps_congr {s t : LDState} (h : t.sentPackets = s.sentPackets)
    (hnd : nodupMaps s) : nodupMaps t := by
  unfold nodupMaps at *
  rw [h]
  exact hnd

theorem placedMaps_congr {s t : LDState} (h : t.sentPackets = s.sentPackets)
    (hp : placedMaps s) : placedMaps t := by
  unfold placedMaps at *
  rw [h]
  exact hp

theorem totalAE_congr {s t : LDState} (h : t.sentPackets = s.sentPackets) :
    totalAE t = totalAE s := by
  unfold totalAE
  rw [h]

theorem totalHS_congr {s t : LDState} (h : t.sentPackets = s.sentPackets) :
    totalHS t = totalHS s := by
  unfold totalHS
  rw [h]

theorem totalAE_set_pure (s : LDState) (space : KPacketNumberSpace)
    (m : List (ℕ × SentPacket)) :
    totalAE { s with sentPackets := s.sentPackets.set space m } +
        countAE (s.sentPackets.get space) =
      totalAE s + countAE m := by
  cases space <;> simp [totalAE, PerSpace.get, PerSpace.set] <;> ring

theorem totalHS_set_pure (s : LDState) (space : KPacketNumberSpace)
    (m : List (ℕ × SentPacket)) :
    totalHS { s with sentPackets := s.sentPackets.set space m } +
        countHS (s.sentPackets.get space) =
      totalHS s + countHS m := by
  cases space <;> simp [totalHS, PerSpace.get, PerSpace.set] <;> ring

theorem nodupMaps_set_pure {s : LDState} (hnd : nodupMaps s) (space : KPacketNumberSpace)
    {m : List (ℕ × SentPacket)} (hm : (keysOf m).Nodup) :
    nodupMaps { s with sentPackets := s.sentPackets.set space m } := by
  obtain ⟨h1, h2, h3⟩ := hnd
  cases space <;>
    exact ⟨by simpa [PerSpace.get, PerSpace.set] using ‹_›,
           by simpa [PerSpace.get, PerSpace.set] using ‹_›,
           by simpa [PerSpace.get, PerSpace.set] using ‹_›⟩

theorem placedMaps_set_pure {s : LDState} (hp : placedMaps s) (space : KPacketNumberSpace)
    {m : List (ℕ × SentPacket)} (hm : placedMap space m) :
    placedMaps { s with sentPackets := s.sentPackets.set space m } := by
  obtain ⟨h1, h2, h3⟩ := hp
  cases space <;>
    exact ⟨by simpa [PerSpace.get, PerSpace.set] using ‹_›,
           by simpa [PerSpace.get, PerSpace.set] using ‹_›,
           by simpa [PerSpace.get, PerSpace.set] using ‹_›⟩

theorem insert_effect {s t u : LDState} (now : ℚ) (p : BasePacket)
    (ht : t.sentPackets = s.sentPackets) (hnd : nodupMaps s)
    (hfresh : lookupSent (s.sentPackets.get (findPacketSpaceFromPacket p)) p.pn = none)
    (hu : u = { t with sentPackets := (t.sentPackets.set (findPacketSpaceFromPacket p)
      (t.sentPackets.get (findPacketSpaceFromPacket p) ++
        [(p.pn, { packet := p, time := now, isRetransmittable := p.isRetransmittable })])) }) :
    nodupMaps u ∧ (placedMaps s → placedMaps u) ∧
      totalAE u = totalAE s + (if p.isRetransmittable then 1 else 0) ∧
      totalHS u = totalHS s + (if p.isHandshake then 1 else 0) := by
  set space := findPacketSpaceFromPacket p with hspace
  set kv : ℕ × SentPacket :=
    (p.pn, { packet := p, time := now, isRetransmittable := p.isRetransmittable }) with hkv
  have hpn : p.pn ∉ keysOf (s.sentPackets.get space) := lookupSent_eq_none.mp hfresh
  have hmap : u.sentPackets = s.sentPackets.set space (s.sentPackets.get space ++ [kv]) := by
    rw [hu]
    show t.sentPackets.set space (t.sentPackets.get space ++ [kv]) =
      s.sentPackets.set space (s.sentPackets.get space ++ [kv])
    rw [ht]
  refine ⟨?_, ?_, ?_, ?_⟩
  · exact nodupMaps_congr hmap
      (nodupMaps_set_pure hnd space (nodup_keysOf_append (nodupMaps_get hnd space) hpn))
  · intro hp
    exact placedMaps_congr hmap
      (placedMaps_set_pure hp space
        (placedMap_append (placedMaps_get hp space) rfl hspace.symm))
  · have h1 := totalAE_set_pure s space (s.sentPackets.get space ++ [kv])
    have h2 := countAE_append (s.sentPackets.get space) kv
    have h3 := @totalAE_congr
      { s with sentPackets := s.sentPackets.set space (s.sentPackets.get space ++ [kv]) } u hmap
    have h4 : (if kv.2.packet.isRetransmittable then 1 else 0) =
        (if p.isRetransmittable then (1 : ℕ) else 0) := rfl
    omega
  · have h1 := totalHS_set_pure s space (s.sentPackets.get space ++ [kv])
    have h2 := countHS_append (s.sentPackets.get space) kv
    have h3 := @totalHS_congr
      { s with sentPackets := s.sentPackets.set space (s.sentPackets.get space ++ [kv]) } u hmap
    have h4 : (if kv.2.packet.isHandshake then 1 else 0) =
        (if p.isHandshake then (1 : ℕ) else 0) := rfl
    omega

theorem onPacketSentBump_sentPackets (now : ℚ) (p : BasePacket) (s : LDState) :
    (onPacketSentBump now p s).sentPackets = s.sentPackets := by
  simp only [onPacketSentBump]
  split_ifs <;> rfl

theorem onPacketSentBump_ackOut (now : ℚ) (p : BasePacket) (s : LDState) :
    (onPacketSentBump now p s).ackElicitingPacketsOutstanding =
      s.ackElicitingPacketsOutstanding + (if p.isRetransmittable then 1 else 0) := by
  simp only [onPacketSentBump]
  split_ifs <;> simp

theorem onPacketSentBump_cryptoOut (now : ℚ) (p : BasePacket) (s : LDState) :
    (onPacketSentBump now p s).cryptoOutstanding =
      s.cryptoOutstanding + (if p.isHandshake then 1 else 0) := by
  simp only [onPacketSentBump]
  split_ifs <;> simp

theorem onPacketSent_fresh_eq (now : ℚ) (p : BasePacket) {s : LDState}
    (hfresh : lookupSent (s.sentPackets.get (findPacketSpaceFromPacket p)) p.pn = none) :
    onPacketSent now p s =
      { setLossDetectionAlarm now (onPacketSentBump now p s) with sentPackets :=
        ((setLossDetectionAlarm now (onPacketSentBump now p s)).sentPackets.set
          (findPacketSpaceFromPacket p)
          ((setLossDetectionAlarm now (onPacketSentBump now p s)).sentPackets.get
            (findPacketSpaceFromPacket p) ++
              [(p.pn, { packet := p, time := now,
                        isRetransmittable := p.isRetransmittable })])) } := by
  have hl : lookupSent
      ((setLossDetectionAlarm now (onPacketSentBump now p s)).sentPackets.get
        (findPacketSpaceFromPacket p)) p.pn = none := by
    rw [setLossDetectionAlarm_sentPackets, onPacketSentBump_sentPackets]
    exact hfresh
  simp only [onPacketSent, hl]

theorem onPacketSent_fresh_pres (now : ℚ) (p : BasePacket) {s : LDState} (hnd : nodupMaps s)
    (hfresh : lookupSent (s.sentPackets.get (findPacketSpaceFromPacket p)) p.pn = none) :
    nodupMaps (onPacketSent now p s) ∧
      (ackInv s → ackInv (onPacketSent now p s)) ∧
      (cryptoInv s → cryptoInv (onPacketSent now p s)) ∧
      (placedMaps s → placedMaps (onPacketSent now p s)) := by
  have ht : (setLossDetectionAlarm now (onPacketSentBump now p s)).sentPackets =
      s.sentPackets := by
    rw [setLossDetectionAlarm_sentPackets, onPacketSentBump_sentPackets]
  obtain ⟨hnod, hplace, hAE, hHS⟩ :=
    insert_effect now p ht hnd hfresh (onPacketSent_fresh_eq now p hfresh)
  have hackOut : (onPacketSent now p s).ackElicitingPacketsOutstanding =
      s.ackElicitingPacketsOutstanding + (if p.isRetransmittable then 1 else 0) := by
    rw [onPacketSent_fresh_eq now p hfresh]
    show (setLossDetectionAlarm now (onPacketSentBump now p s)).ackElicitingPacketsOutstanding = _
    rw [setLossDetectionAlarm_ackOut, onPacketSentBump_ackOut]
  have hcryptoOut : (onPacketSent now p s).cryptoOutstanding =
      s.cryptoOutstanding + (if p.isHandshake then 1 else 0) := by
    rw [onPacketSent_fresh_eq now p hfresh]
    show (setLossDetectionAlarm now (onPacketSentBump now p s)).cryptoOutstanding = _
    rw [setLossDetectionAlarm_cryptoOut, onPacketSentBump_cryptoOut]
  refine ⟨hnod, ?_, ?_, hplace⟩
  · intro ha
    unfold ackInv at ha ⊢
    rw [hackOut, hAE]
    by_cases hr : p.isRetransmittable <;> simp [hr] <;> omega
  · intro hc
    unfold cryptoInv at hc ⊢
    rw [hcryptoOut, hHS]
    by_cases hh : p.isHandshake <;> simp [hh] <;> omega

theorem invTransfer {a b : LDState}
    (hmap : b.sentPackets = a.sentPackets)
    (hack : b.ackElicitingPacketsOutstanding = a.ackElicitingPacketsOutstanding)
    (hcr : b.cryptoOutstanding = a.cryptoOutstanding) :
    (nodupMaps a → nodupMaps b) ∧ (ackInv a → ackInv b) ∧
      (cryptoInv a → cryptoInv b) ∧ (placedMaps a → placedMaps b) := by
  refine ⟨fun h => nodupMaps_congr hmap h, fun h => ?_, fun h => ?_,
    fun h => placedMaps_congr hmap h⟩
  · unfold ackInv at h ⊢
    rw [hack, totalAE_congr hmap]
    exact h
  · unfold cryptoInv at h ⊢
    rw [hcr, totalHS_congr hmap]
    exact h

theorem updateRtt_pres (now : ℚ) (ack : AckFrame) (t : LDState) :
    (nodupMaps t → nodupMaps (updateRtt now ack t).1) ∧
      (ackInv t → ackInv (updateRtt now ack t).1) ∧
      (cryptoInv t → cryptoInv (updateRtt now ack t).1) ∧
      (placedMaps t → placedMaps (updateRtt now ack t).1) :=
  invTransfer (updateRtt_sentPackets now ack t) (updateRtt_ackOut now ack t)
    (updateRtt_cryptoOut now ack t)

theorem onAckReceived_pres (now : ℚ) (ack : AckFrame) {s : LDState} (hnd : nodupMaps s) :
    nodupMaps (onAckReceived now ack s).2 ∧
      (ackInv s → ackInv (onAckReceived now ack s).2) ∧
      (cryptoInv s → cryptoInv (onAckReceived now ack s).2) ∧
      (placedMaps s → placedMaps (onAckReceived now ack s).2) := by
  simp only [onAckReceived, detectLostPackets_eq]
  generalize hg0 : ({ s with largestAckedPacket :=
    (s.largestAckedPacket.set (findPacketSpaceFromAckFrame ack)
      (max ack.largestAcknowledged
        (s.largestAckedPacket.get (findPacketSpaceFromAckFrame ack)))) } : LDState) = s0
  have hnd0 : nodupMaps s0 := by rw [← hg0]; exact hnd
  have ha0 : ackInv s → ackInv s0 := by rw [← hg0]; exact fun h => h
  have hc0 : cryptoInv s → cryptoInv s0 := by rw [← hg0]; exact fun h => h
  have hp0 : placedMaps s → placedMaps s0 := by rw [← hg0]; exact fun h => h
  obtain ⟨hn1, ha1, hc1, hp1⟩ := updateRtt_pres now ack s0
  generalize hg1 : (updateRtt now ack s0).1 = s1 at hn1 ha1 hc1 hp1 ⊢
  obtain ⟨hn2, ha2, hc2, hp2⟩ :=
    ackPacketsLoop_pres (determineNewlyAckedPackets s1 ack) s1 (hn1 hnd0)
  generalize hg2 : (ackPacketsLoop (determineNewlyAckedPackets s1 ack) s1).2 = s2
    at hn2 ha2 hc2 hp2 ⊢
  obtain ⟨hn3, ha3, hc3, hp3⟩ := @invTransfer s2
    (setLossDetectionAlarm now
      { s2 with lossTime := (s2.lossTime.set (findPacketSpaceFromAckFrame ack) 0),
                cryptoCount := 0, ptoCount := 0 })
    (by rw [setLossDetectionAlarm_sentPackets])
    (by rw [setLossDetectionAlarm_ackOut])
    (by rw [setLossDetectionAlarm_cryptoOut])
  exact ⟨hn3 hn2, fun h => ha3 (ha2 (ha1 (ha0 h))), fun h => hc3 (hc2 (hc1 (hc0 h))),
    fun h => hp3 (hp2 (hp1 (hp0 h)))⟩

theorem sendPackets_pres (amount : ℕ) {s : LDState} (hnd : nodupMaps s) :
    nodupMaps (sendPackets amount s).2 ∧
      (ackInv s → ackInv (sendPackets amount s).2) ∧
      (cryptoInv s → cryptoInv (sendPackets amount s).2) ∧
      (placedMaps s → placedMaps (sendPackets amount s).2) := by
  simp only [sendPackets]
  obtain ⟨hn1, ha1, hc1, hp1⟩ :=
    sendPacketsInSpace_pres .initial amount (keysOf (s.sentPackets.get .initial)) 0 s hnd
  generalize hg1 :
    sendPacketsInSpace .initial amount (keysOf (s.sentPackets.get .initial)) 0 s = r1
    at hn1 ha1 hc1 hp1 ⊢
  by_cases hs1 : r1.stopped
  · simp only [hs1, if_true]
    exact ⟨hn1, ha1, hc1, hp1⟩
  · simp only [Bool.not_eq_true] at hs1
    simp only [hs1, Bool.false_eq_true, if_false]
    obtain ⟨hn2, ha2, hc2, hp2⟩ :=
      sendPacketsInSpace_pres .handshake amount
        (keysOf (r1.state.sentPackets.get .handshake)) r1.sendCount r1.state hn1
    generalize hg2 :
      sendPacketsInSpace .handshake amount
        (keysOf (r1.state.sentPackets.get .handshake)) r1.sendCount r1.state = r2
      at hn2 ha2 hc2 hp2 ⊢
    by_cases hs2 : r2.stopped
    · simp only [hs2, if_true]
      exact ⟨hn2, fun h => ha2 (ha1 h), fun h => hc2 (hc1 h), fun h => hp2 (hp1 h)⟩
    · simp only [Bool.not_eq_true] at hs2
      simp only [hs2, Bool.false_eq_true, if_false]
      obtain ⟨hn3, ha3, hc3, hp3⟩ :=
        sendPacketsInSpace_pres .applicationData amount
          (keysOf (r2.state.sentPackets.get .applicationData)) r2.sendCount r2.state hn2
      exact ⟨hn3, fun h => ha3 (ha2 (ha1 h)), fun h => hc3 (hc2 (hc1 h)),
        fun h => hp3 (hp2 (hp1 h))⟩

theorem retransmitAllUnackedHandshakeData_pres {s : LDState} (hnd : nodupMaps s) :
    nodupMaps (retransmitAllUnackedHandshakeData s).1 ∧
      (ackInv s → ackInv (retransmitAllUnackedHandshakeData s).1) ∧
      (cryptoInv s → cryptoInv (retransmitAllUnackedHandshakeData s).1) ∧
      (placedMaps s → placedMaps (retransmitAllUnackedHandshakeData s).1) := by
  simp only [retransmitAllUnackedHandshakeData]
  obtain ⟨hn1, ha1, hc1, hp1⟩ :=
    retransmitAllInSpace_pres .initial (keysOf (s.sentPackets.get .initial)) s hnd
  generalize hg1 :
    retransmitAllInSpace .initial (keysOf (s.sentPackets.get .initial)) s = r1
    at hn1 ha1 hc1 hp1 ⊢
  obtain ⟨hn2, ha2, hc2, hp2⟩ :=
    retransmitAllInSpace_pres .handshake (keysOf (r1.1.sentPackets.get .handshake)) r1.1 hn1
  generalize hg2 :
    retransmitAllInSpace .handshake (keysOf (r1.1.sentPackets.get .handshake)) r1.1 = r2
    at hn2 ha2 hc2 hp2 ⊢
  obtain ⟨hn3, ha3, hc3, hp3⟩ :=
    retransmitAllInSpace_pres .applicationData
      (keysOf (r2.1.sentPackets.get .applicationData)) r2.1 hn2
  exact ⟨hn3, fun h => ha3 (ha2 (ha1 h)), fun h => hc3 (hc2 (hc1 h)),
    fun h => hp3 (hp2 (hp1 h))⟩

theorem onLossDetectionAlarm_pres (now : ℚ) {s : LDState} (hnd : nodupMaps s) :
    nodupMaps (onLossDetectionAlarm now s).2 ∧
      (ackInv s → ackInv (onLossDetectionAlarm now s).2) ∧
      (cryptoInv s → cryptoInv (onLossDetectionAlarm now s).2) ∧
      (placedMaps s → placedMaps (onLossDetectionAlarm now s).2) := by
  simp only [onLossDetectionAlarm, detectLostPackets_eq]
  by_cases h1 : 0 < s.cryptoOutstanding
  · rw [if_pos h1]
    obtain ⟨hn1, ha1, hc1, hp1⟩ := retransmitAllUnackedHandshakeData_pres hnd
    generalize hg1 : retransmitAllUnackedHandshakeData s = r1 at hn1 ha1 hc1 hp1 ⊢
    obtain ⟨hn2, ha2, hc2, hp2⟩ := @invTransfer
      ({ r1.1 with cryptoCount := r1.1.cryptoCount + 1 })
      (setLossDetectionAlarm now { r1.1 with cryptoCount := r1.1.cryptoCount + 1 })
      (by rw [setLossDetectionAlarm_sentPackets])
      (by rw [setLossDetectionAlarm_ackOut])
      (by rw [setLossDetectionAlarm_cryptoOut])
    exact ⟨hn2 hn1, fun h => ha2 (ha1 h), fun h => hc2 (hc1 h), fun h => hp2 (hp1 h)⟩
  · rw [if_neg h1]
    by_cases h2 : (getEarliestLossTime s).1 ≠ 0
    · rw [if_pos h2]
      obtain ⟨hn2, ha2, hc2, hp2⟩ := @invTransfer
        ({ s with lossTime := s.lossTime.set (getEarliestLossTime s).2 0 })
        (setLossDetectionAlarm now
          { s with lossTime := s.lossTime.set (getEarliestLossTime s).2 0 })
        (by rw [setLossDetectionAlarm_sentPackets])
        (by rw [setLossDetectionAlarm_ackOut])
        (by rw [setLossDetectionAlarm_cryptoOut])
      exact ⟨hn2 hnd, fun h => ha2 h, fun h => hc2 h, fun h => hp2 h⟩
    · rw [if_neg h2]
      obtain ⟨hn1, ha1, hc1, hp1⟩ := sendPackets_pres 2 hnd
      generalize hg1 : sendPackets 2 s = r1 at hn1 ha1 hc1 hp1 ⊢
      obtain ⟨hn2, ha2, hc2, hp2⟩ := @invTransfer
        ({ r1.2 with ptoCount := r1.2.ptoCount + 1 })
        (setLossDetectionAlarm now { r1.2 with ptoCount := r1.2.ptoCount + 1 })
        (by rw [setLossDetectionAlarm_sentPackets])
        (by rw [setLossDetectionAlarm_ackOut])
        (by rw [setLossDetectionAlarm_cryptoOut])
      exact ⟨hn2 hn1, fun h => ha2 (ha1 h), fun h => hc2 (hc1 h), fun h => hp2 (hp1 h)⟩

theorem alarmFired_pres (now : ℚ) {s : LDState} (hnd : nodupMaps s) :
    nodupMaps (alarmFired now s).2 ∧
      (ackInv s → ackInv (alarmFired now s).2) ∧
      (cryptoInv s → cryptoInv (alarmFired now s).2) ∧
      (placedMaps s → placedMaps (alarmFired now s).2) := by
  exact @onLossDetectionAlarm_pres now { s with lossDetectionAlarm := none } hnd

/-! Claim theorems. -/

/-- Claim C1 (code bug): in stateC1 the sole recorded packet (number 0,
sent at time 0, ApplicationData, largestAcked = 4) satisfies both loss
conditions of the claim at now = 10000 (its age exceeds lossDelay and its
number is at most largestAcked - kPacketThreshold), yet detectLostPackets
emits nothing and leaves sentPackets untouched: the source iterates the
keys of the sendPackets method instead of the sentPackets record, so the
loss loop is dead code. -/
theorem claim_C1 :
    lookupSent (stateC1.sentPackets.get .applicationData) 0 =
        some { packet := pkt0, time := 0, isRetransmittable := true } ∧
      lossDelay stateC1.rtt ≤ 10000 - 0 ∧
      (0 : ℤ) ≤ (stateC1.largestAckedPacket.get .applicationData : ℤ) - kPacketThreshold ∧
      (detectLostPackets 10000 KPacketNumberSpace.applicationData stateC1).1 = [] ∧
      (detectLostPackets 10000 KPacketNumberSpace.applicationData stateC1).2.sentPackets =
        stateC1.sentPackets := by
  refine ⟨rfl, ?_, by decide, rfl, rfl⟩
  have h : lossDelay stateC1.rtt = 225 / 2 := by
    rw [lossDelay, kTimeThreshold]
    norm_num [stateC1, rtt100, emptyState]
  rw [h]
  norm_num

/-- Claim C2 counterexample: reset clears no counter; from stateC2 (all
counters nonzero) the counters survive reset unchanged, contradicting the
claim that they are all zero afterwards. -/
theorem claim_C2_cex :
    (reset stateC2).ackElicitingPacketsOutstanding ≠ 0 ∧
      (reset stateC2).cryptoOutstanding ≠ 0 ∧
      (reset stateC2).cryptoCount ≠ 0 ∧
      (reset stateC2).ptoCount ≠ 0 := by decide

/-- Claim C2 (amended): after reset the three sent-packet records are
empty and the alarm is cancelled, but the four counters keep their
previous values. -/
theorem claim_C2 (s : LDState) :
    (reset s).sentPackets.get .initial = [] ∧
      (reset s).sentPackets.get .handshake = [] ∧
      (reset s).sentPackets.get .applicationData = [] ∧
      (reset s).lossDetectionAlarm = none ∧
      (reset s).cryptoCount = s.cryptoCount ∧
      (reset s).ptoCount = s.ptoCount ∧
      (reset s).ackElicitingPacketsOutstanding = s.ackElicitingPacketsOutstanding ∧
      (reset s).cryptoOutstanding = s.cryptoOutstanding :=
  ⟨rfl, rfl, rfl, rfl, rfl, rfl, rfl, rfl⟩

/-- Claim C4 counterexample: with both RTT estimates at 40 ms the computed
lossDelay is 45 ms, not the claimed max(45, kGranularity) = 50 ms: the
granularity floor of the claim is absent from the code. -/
theorem claim_C4_cex :
    lossDelay rtt40 = 45 ∧
      lossDelay rtt40 ≠ max (kTimeThreshold * max rtt40.latestRtt rtt40.smoothedRtt)
        kGranularity := by
  have h1 : lossDelay rtt40 = 45 := by
    rw [lossDelay, kTimeThreshold]
    norm_num [rtt40]
  have h2a : kTimeThreshold * max rtt40.latestRtt rtt40.smoothedRtt = 45 := by
    rw [kTimeThreshold]
    norm_num [rtt40]
  have h2 : max (kTimeThreshold * max rtt40.latestRtt rtt40.smoothedRtt) kGranularity = 50 := by
    rw [h2a, kGranularity, max_eq_right]
    norm_num
  refine ⟨h1, ?_⟩
  rw [h1, h2]
  norm_num

/-- Claim C4 (amended): lossDelay is kTimeThreshold times the larger of
latestRtt and smoothedRtt with no granularity floor; it coincides with
the claimed formula exactly when that product is at least kGranularity. -/
theorem claim_C4 (r : RttState) :
    lossDelay r = kTimeThreshold * max r.latestRtt r.smoothedRtt ∧
      (kGranularity ≤ kTimeThreshold * max r.latestRtt r.smoothedRtt →
        lossDelay r = max (kTimeThreshold * max r.latestRtt r.smoothedRtt) kGranularity) := by
  refine ⟨rfl, fun h => ?_⟩
  rw [lossDelay, max_eq_left h]

/-- Witness for claim C4 at both RTT estimates 100 ms. -/
theorem claim_C4_witness :
    kGranularity ≤ kTimeThreshold * max rtt100.latestRtt rtt100.smoothedRtt ∧
      lossDelay rtt100 = max (kTimeThreshold * max rtt100.latestRtt rtt100.smoothedRtt)
        kGranularity := by
  have h : kGranularity ≤ kTimeThreshold * max rtt100.latestRtt rtt100.smoothedRtt := by
    rw [kGranularity, kTimeThreshold]
    norm_num [rtt100]
  exact ⟨h, (claim_C4 rtt100).2 h⟩

/-- Claim C3 counterexample: in stateC3 (one crypto packet outstanding,
last crypto packet sent at time 0) a call at now = 1000 arms the alarm at
1000 + duration, not at timeOfLastSentCryptoPacket + duration, so the
firing time is not based from the time of the last sent crypto packet;
moreover when the alarm is already running (deadline 77) the call leaves
it untouched instead of re-arming it in crypto mode. -/
theorem claim_C3_cex :
    (setLossDetectionAlarm 1000 stateC3).lossDetectionAlarm =
        some (1000 +
          max ((if stateC3.rtt.smoothedRtt = 0 then kInitialRTT * 2
                else stateC3.rtt.smoothedRtt * 2) + stateC3.rtt.maxAckDelay) kGranularity *
            2 ^ stateC3.cryptoCount) ∧
      (some (1000 +
          max ((if stateC3.rtt.smoothedRtt = 0 then kInitialRTT * 2
                else stateC3.rtt.smoothedRtt * 2) + stateC3.rtt.maxAckDelay) kGranularity *
            2 ^ stateC3.cryptoCount) ≠
        some (stateC3.timeOfLastSentCryptoPacket +
          max ((if stateC3.rtt.smoothedRtt = 0 then kInitialRTT * 2
                else stateC3.rtt.smoothedRtt * 2) + stateC3.rtt.maxAckDelay) kGranularity *
            2 ^ stateC3.cryptoCount)) ∧
      (setLossDetectionAlarm 1000
          { stateC3 with lossDetectionAlarm := some 77 }).lossDetectionAlarm = some 77 := by
  refine ⟨?_, ?_, ?_⟩
  · simp only [setLossDetectionAlarm]
    rw [if_neg (by decide : ¬stateC3.ackElicitingPacketsOutstanding = 0),
      if_pos (by decide : stateC3.cryptoOutstanding ≠ 0),
      if_neg (by decide : ¬stateC3.lossDetectionAlarm.isSome = true)]
  · have ht : stateC3.timeOfLastSentCryptoPacket = 0 := rfl
    rw [ht]
    simp only [ne_eq, Option.some.injEq, add_left_inj]
    norm_num
  · simp only [setLossDetectionAlarm]
    rw [if_neg (by decide :
        ¬({ stateC3 with lossDetectionAlarm := some 77 } : LDState).ackElicitingPacketsOutstanding = 0),
      if_pos (by decide :
        ({ stateC3 with lossDetectionAlarm := some 77 } : LDState).lossDetectionAlarm.isSome = true)]

/-- Claim C3 (amended): when ack-eliciting and crypto packets are both
outstanding, setLossDetectionAlarm leaves an already-running alarm
untouched, and otherwise starts it at now plus the crypto duration
max(2 x (smoothedRtt, or kInitialRTT without a sample) + maxAckDelay,
kGranularity) x 2 ^ cryptoCount; the base variable holding
timeOfLastSentCryptoPacket is computed by the source but never used. -/
theorem claim_C3 (now : ℚ) (s : LDState)
    (h1 : s.ackElicitingPacketsOutstanding ≠ 0) (h2 : s.cryptoOutstanding ≠ 0) :
    (setLossDetectionAlarm now s).lossDetectionAlarm =
      if s.lossDetectionAlarm.isSome then s.lossDetectionAlarm
      else some (now +
        max ((if s.rtt.smoothedRtt = 0 then kInitialRTT * 2 else s.rtt.smoothedRtt * 2) +
          s.rtt.maxAckDelay) kGranularity * 2 ^ s.cryptoCount) := by
  simp only [setLossDetectionAlarm]
  rw [if_neg h1, if_pos h2]
  by_cases h3 : s.lossDetectionAlarm.isSome
  · rw [if_pos h3, if_pos h3]
  · rw [if_neg h3, if_neg h3]

/-- Witness for claim C3 at stateC3 and now = 1000. -/
theorem claim_C3_witness :
    stateC3.ackElicitingPacketsOutstanding ≠ 0 ∧ stateC3.cryptoOutstanding ≠ 0 ∧
      (setLossDetectionAlarm 1000 stateC3).lossDetectionAlarm =
        (if stateC3.lossDetectionAlarm.isSome then stateC3.lossDetectionAlarm
         else some (1000 +
           max ((if stateC3.rtt.smoothedRtt = 0 then kInitialRTT * 2
                 else stateC3.rtt.smoothedRtt * 2) + stateC3.rtt.maxAckDelay) kGranularity *
             2 ^ stateC3.cryptoCount)) :=
  ⟨by decide, by decide, claim_C3 1000 stateC3 (by decide) (by decide)⟩

/-- Claim C5 counterexample: stateC5 satisfies the counter invariant, but
reset breaks it (the map is cleared while the counter stays 1), and so
does a second onPacketSent of the already-recorded packet number 0 (the
counter is bumped while the duplicate insert is refused). -/
theorem claim_C5_cex :
    ackInv stateC5 ∧ ¬ ackInv (reset stateC5) ∧ ¬ ackInv (onPacketSent 5 pkt0 stateC5) := by
  refine ⟨by decide, by decide, by decide⟩

/-- Claim C5 (amended): for a well-formed state (no duplicate packet
number within a space) satisfying the counter invariant, the invariant is
preserved by onPacketSent of a packet number not already recorded in its
space, by onAckReceived, and by the alarm firing; it is not preserved by
reset or by a duplicate onPacketSent (claim_C5_cex). -/
theorem claim_C5 (s : LDState) (hnd : nodupMaps s) (hinv : ackInv s) :
    (∀ (now : ℚ) (p : BasePacket),
        lookupSent (s.sentPackets.get (findPacketSpaceFromPacket p)) p.pn = none →
          ackInv (onPacketSent now p s)) ∧
      (∀ (now : ℚ) (ack : AckFrame), ackInv (onAckReceived now ack s).2) ∧
      (∀ (now : ℚ), ackInv (alarmFired now s).2) :=
  ⟨fun now p hf => (onPacketSent_fresh_pres now p hnd hf).2.1 hinv,
    fun now ack => (onAckReceived_pres now ack hnd).2.1 hinv,
    fun now => (alarmFired_pres now hnd).2.1 hinv⟩

/-- Witness for claim C5: the invariant survives an onAckReceived, an
alarm firing, and a fresh onPacketSent from stateC5. -/
theorem claim_C5_witness :
    nodupMaps stateC5 ∧ ackInv stateC5 ∧
      ackInv (onAckReceived 7 ackC7 stateC5).2 ∧
      ackInv (alarmFired 60 stateC5).2 ∧
      ackInv (onPacketSent 9 pkt1 stateC5) := by
  have h := claim_C5 stateC5 (by decide) (by decide)
  exact ⟨by decide, by decide, h.2.1 7 ackC7, h.2.2 60, h.1 9 pkt1 (by decide)⟩

/-- Claim C8: on a server that cannot negotiate the offered version of a
long-header packet, handleClientVersion fails with
VERSION_NEGOTIATION_ERROR exactly for Initial packets, with the transient
IGNORE_PACKET exactly for non-Initial packets that are 0-RTT or arrive in
the server's initial allow-all (SERVER_HELLO) state, and with
PROTOCOL_VIOLATION in every other case. -/
theorem claim_C8 (packetType : LongHeaderType) (hsState : HandshakeState) :
    (handleClientVersion none packetType hsState =
        Except.error (HeaderFailure.quicError ConnectionErrorCode.versionNegotiationError) ↔
      packetType = LongHeaderType.initial) ∧
      (handleClientVersion none packetType hsState = Except.error HeaderFailure.ignorePacket ↔
        (packetType ≠ LongHeaderType.initial ∧
          (packetType = LongHeaderType.protected0RTT ∨ hsState = HandshakeState.serverHello))) ∧
      (handleClientVersion none packetType hsState =
          Except.error (HeaderFailure.quicError ConnectionErrorCode.protocolViolation) ↔
        (packetType ≠ LongHeaderType.initial ∧ packetType ≠ LongHeaderType.protected0RTT ∧
          hsState ≠ HandshakeState.serverHello)) := by
  cases packetType <;> cases hsState <;> simp [handleClientVersion]

/-- Claim C9: processing a short header changes the connection's observed
spin bit only when the packet becomes the new highest received number in
ApplicationData; in that case a client stores the inverse of the received
spin bit and a server mirrors it, while a packet whose adjusted number
does not exceed the current highest leaves both the spin bit and the
highest received number unchanged. -/
theorem claim_C9 (endpointType : EndpointType) (highestReceivedNumber : Option ℕ)
    (headerPacketNumber adjustedNumber : ℕ) (receivedSpinBit currentSpinBit : Bool)
    (r : ShortHeaderResult)
    (hr : r = processShortHeader endpointType highestReceivedNumber headerPacketNumber
      adjustedNumber receivedSpinBit currentSpinBit) :
    (r.spinBit ≠ currentSpinBit →
        highestReceivedNumber = none ∨
          ∃ h, highestReceivedNumber = some h ∧ h < adjustedNumber) ∧
      (∀ h, highestReceivedNumber = some h → h < adjustedNumber →
        r.spinBit = (if endpointType = .client then !receivedSpinBit else receivedSpinBit) ∧
          r.highestReceivedNumber = some adjustedNumber) ∧
      (∀ h, highestReceivedNumber = some h → adjustedNumber ≤ h →
        r.spinBit = currentSpinBit ∧ r.highestReceivedNumber = some h) ∧
      (highestReceivedNumber = none →
        r.spinBit = (if endpointType = .client then !receivedSpinBit else receivedSpinBit) ∧
          r.highestReceivedNumber = some headerPacketNumber) := by
  subst hr
  cases highestReceivedNumber with
  | none =>
    refine ⟨fun _ => Or.inl rfl, ?_, ?_, fun _ => ⟨rfl, rfl⟩⟩
    · intro h heq
      exact absurd heq (by simp)
    · intro h heq
      exact absurd heq (by simp)
  | some h =>
    by_cases hlt : h < adjustedNumber
    · rw [show processShortHeader endpointType (some h) headerPacketNumber adjustedNumber
          receivedSpinBit currentSpinBit =
        { highestReceivedNumber := some adjustedNumber,
          spinBit := if endpointType = .client then !receivedSpinBit else receivedSpinBit,
          packetNumber := adjustedNumber } from by
            simp [processShortHeader, hlt]]
      refine ⟨fun _ => Or.inr ⟨h, rfl, hlt⟩, ?_, ?_, ?_⟩
      · intro h2 heq _
        exact ⟨rfl, rfl⟩
      · intro h2 heq hle
        rw [Option.some.injEq] at heq
        subst heq
        omega
      · intro heq
        exact absurd heq (by simp)
    · rw [show processShortHeader endpointType (some h) headerPacketNumber adjustedNumber
          receivedSpinBit currentSpinBit =
        { highestReceivedNumber := some h, spinBit := currentSpinBit,
          packetNumber := adjustedNumber } from by
            simp [processShortHeader, hlt]]
      refine ⟨fun hne => absurd rfl hne, ?_, ?_, ?_⟩
      · intro h2 heq hlt2
        rw [Option.some.injEq] at heq
        subst heq
        omega
      · intro h2 heq _
        rw [Option.some.injEq] at heq
        subst heq
        exact ⟨rfl, rfl⟩
      · intro heq
        exact absurd heq (by simp)

/-- Witness for claim C9: a client sees packet 6 exceed the previous
highest 5 and stores the inverse of the received spin bit. -/
theorem claim_C9_witness :
    (processShortHeader .client (some 5) 2 6 true true).spinBit =
        (if EndpointType.client = EndpointType.client then !true else true) ∧
      (processShortHeader .client (some 5) 2 6 true true).highestReceivedNumber = some 6 :=
  (claim_C9 .client (some 5) 2 6 true true _ rfl).2.1 5 rfl (by decide)

theorem updateRtt_eq_none {now : ℚ} {ack : AckFrame} {t : LDState}
    (h : lookupSent (t.sentPackets.get (findPacketSpaceFromAckFrame ack))
      ack.largestAcknowledged = none) :
    updateRtt now ack t = (t, []) := by
  simp only [updateRtt, h]

theorem updateRtt_eq_some_not {now : ℚ} {ack : AckFrame} {t : LDState} {sp : SentPacket}
    (h : lookupSent (t.sentPackets.get (findPacketSpaceFromAckFrame ack))
      ack.largestAcknowledged = some sp) (hr : ¬ sp.isRetransmittable) :
    updateRtt now ack t = (t, []) := by
  simp only [updateRtt, h]
  rw [if_neg hr]

theorem updateRtt_eq_some_retr {now : ℚ} {ack : AckFrame} {t : LDState} {sp : SentPacket}
    (h : lookupSent (t.sentPackets.get (findPacketSpaceFromAckFrame ack))
      ack.largestAcknowledged = some sp) (hr : sp.isRetransmittable) :
    updateRtt now ack t = ({ t with rtt := updateRTT now ack sp t.rtt }, [.rttUpdated]) := by
  simp only [updateRtt, h]
  rw [if_pos hr]

theorem ackPacketsLoop_rtt (l : List BasePacket) (t : LDState) :
    (ackPacketsLoop l t).2.rtt = t.rtt := by
  obtain ⟨m, a, c, h⟩ := ackPacketsLoop_shape l t
  rw [h]

theorem ackPacketsLoop_events_acked (l : List BasePacket) :
    ∀ (t : LDState) (e : LDEvent), e ∈ (ackPacketsLoop l t).1 →
      ∃ p, p ∈ l ∧ e = LDEvent.packetAcked p ∧ p.isRetransmittable := by
  induction l with
  | nil => intro t e he; simp [ackPacketsLoop] at he
  | cons p l ih =>
    intro t e he
    simp only [ackPacketsLoop, onSentPacketAcked] at he
    rcases List.mem_append.mp he with he | he
    · by_cases hr : p.isRetransmittable
      · rw [if_pos hr] at he
        rw [List.mem_singleton.mp he]
        exact ⟨p, List.mem_cons_self _ _, rfl, hr⟩
      · rw [if_neg hr] at he
        simp at he
    · obtain ⟨q, hq, he, hqr⟩ := ih _ e he
      exact ⟨q, List.mem_cons_of_mem _ hq, he, hqr⟩

/-- Claim C7: during onAckReceived the RTT estimator update runs exactly
when the packet with the ACK's largest acknowledged number is still
recorded in the ACK's space and was retransmittable; when it is absent
(a duplicate ACK) or was not retransmittable, the whole call leaves the
RTT estimator state untouched. -/
theorem claim_C7 (now : ℚ) (ack : AckFrame) (s : LDState) :
    ((LDEvent.rttUpdated ∈ (onAckReceived now ack s).1) ↔
        (∃ sp, lookupSent (s.sentPackets.get (findPacketSpaceFromAckFrame ack))
            ack.largestAcknowledged = some sp ∧ sp.isRetransmittable)) ∧
      (lookupSent (s.sentPackets.get (findPacketSpaceFromAckFrame ack))
          ack.largestAcknowledged = none → (onAckReceived now ack s).2.rtt = s.rtt) ∧
      (∀ sp, lookupSent (s.sentPackets.get (findPacketSpaceFromAckFrame ack))
          ack.largestAcknowledged = some sp → ¬ sp.isRetransmittable →
        (onAckReceived now ack s).2.rtt = s.rtt) := by
  simp only [onAckReceived, detectLostPackets_eq]
  generalize hg0 : ({ s with largestAckedPacket :=
    (s.largestAckedPacket.set (findPacketSpaceFromAckFrame ack)
      (max ack.largestAcknowledged
        (s.largestAckedPacket.get (findPacketSpaceFromAckFrame ack)))) } : LDState) = s0
  have hmaps : s0.sentPackets = s.sentPackets := by rw [← hg0]
  have hrtt0 : s0.rtt = s.rtt := by rw [← hg0]
  cases hl : lookupSent (s.sentPackets.get (findPacketSpaceFromAckFrame ack))
      ack.largestAcknowledged with
  | none =>
    have hl0 : lookupSent (s0.sentPackets.get (findPacketSpaceFromAckFrame ack))
        ack.largestAcknowledged = none := by rw [hmaps]; exact hl
    rw [updateRtt_eq_none hl0]
    refine ⟨?_, fun _ => ?_, fun sp hsp => absurd hsp (by simp)⟩
    · simp only [List.nil_append, List.append_nil]
      constructor
      · intro hmem
        obtain ⟨p, _, he, _⟩ := ackPacketsLoop_events_acked _ _ _ hmem
        exact absurd he (by simp)
      · rintro ⟨sp, hsp, -⟩
        exact absurd hsp (by simp)
    · rw [setLossDetectionAlarm_rtt]
      show (ackPacketsLoop (determineNewlyAckedPackets s0 ack) s0).2.rtt = s.rtt
      rw [ackPacketsLoop_rtt, hrtt0]
  | some sp =>
    have hl0 : lookupSent (s0.sentPackets.get (findPacketSpaceFromAckFrame ack))
        ack.largestAcknowledged = some sp := by rw [hmaps]; exact hl
    by_cases hr : sp.isRetransmittable
    · rw [updateRtt_eq_some_retr hl0 hr]
      refine ⟨?_, fun hn => absurd hn (by simp), fun sp2 hsp2 hr2 => ?_⟩
      · simp only [List.cons_append, List.nil_append]
        constructor
        · intro _
          exact ⟨sp, rfl, hr⟩
        · intro _
          exact List.mem_cons_self _ _
      · rw [Option.some.injEq] at hsp2
        subst hsp2
        exact absurd hr hr2
    · rw [updateRtt_eq_some_not hl0 hr]
      refine ⟨?_, fun hn => absurd hn (by simp), fun sp2 hsp2 hr2 => ?_⟩
      · simp only [List.nil_append, List.append_nil]
        constructor
        · intro hmem
          obtain ⟨p, _, he, _⟩ := ackPacketsLoop_events_acked _ _ _ hmem
          exact absurd he (by simp)
        · rintro ⟨sp2, hsp2, hr2⟩
          rw [Option.some.injEq] at hsp2
          subst hsp2
          exact absurd hr2 hr
      · rw [setLossDetectionAlarm_rtt]
        show (ackPacketsLoop (determineNewlyAckedPackets s0 ack) s0).2.rtt = s.rtt
        rw [ackPacketsLoop_rtt, hrtt0]

/-- Witness for claim C7: an ACK whose largest acknowledged packet was
never recorded leaves the RTT estimator untouched. -/
theorem claim_C7_witness :
    lookupSent (emptyState.sentPackets.get (findPacketSpaceFromAckFrame ackC7))
        ackC7.largestAcknowledged = none ∧
      (onAckReceived 7 ackC7 emptyState).2.rtt = emptyState.rtt :=
  ⟨rfl, (claim_C7 7 ackC7 emptyState).2.1 rfl⟩

/-! Characterisation of the PTO probe scan (sendPackets). -/

/-- The entries of a record selected by a key list, in key-list order
(proof-side helper relating the key-snapshot loop to the record). -/
def entriesAt (m : List (ℕ × SentPacket)) (K : List ℕ) : List (ℕ × SentPacket) :=
  K.filterMap (fun k => (lookupSent m k).map (fun e => (k, e)))

/-- Erase a list of keys from a record, in order. -/
def removeKeys (m : List (ℕ × SentPacket)) (ks : List ℕ) : List (ℕ × SentPacket) :=
  ks.foldl eraseSent m

/-- The retransmittable entries of a record. -/
def retrEntries (l : List (ℕ × SentPacket)) : List (ℕ × SentPacket) :=
  l.filter (fun kv => kv.2.packet.isRetransmittable)

theorem entriesAt_nil (m : List (ℕ × SentPacket)) : entriesAt m [] = [] := rfl

theorem entriesAt_cons_some {m : List (ℕ × SentPacket)} {k : ℕ} {e : SentPacket}
    (K : List ℕ) (h : lookupSent m k = some e) :
    entriesAt m (k :: K) = (k, e) :: entriesAt m K := by
  simp [entriesAt, h]

theorem entriesAt_congr {m1 m2 : List (ℕ × SentPacket)} {K : List ℕ}
    (h : ∀ k ∈ K, lookupSent m1 k = lookupSent m2 k) : entriesAt m1 K = entriesAt m2 K := by
  induction K with
  | nil => rfl
  | cons k K ih =>
    simp only [entriesAt, List.filterMap_cons] at ih ⊢
    rw [h k (List.mem_cons_self _ _), ih (fun k2 hk2 => h k2 (List.mem_cons_of_mem _ hk2))]

theorem entriesAt_self {m : List (ℕ × SentPacket)} (hnd : (keysOf m).Nodup) :
    entriesAt m (keysOf m) = m := by
  induction m with
  | nil => rfl
  | cons kv m ih =>
    rw [keysOf_cons, List.nodup_cons] at hnd
    rw [keysOf_cons, entriesAt_cons_some (keysOf m)
      (by rw [lookupSent_cons, if_pos rfl])]
    have hsame : entriesAt (kv :: m) (keysOf m) = entriesAt m (keysOf m) := by
      apply entriesAt_congr
      intro k hk
      rw [lookupSent_cons, if_neg]
      intro he
      exact hnd.1 (he ▸ hk)
    rw [hsame, ih hnd.2]

theorem removeKeys_nil (m : List (ℕ × SentPacket)) : removeKeys m [] = m := rfl

theorem removeKeys_cons (m : List (ℕ × SentPacket)) (k : ℕ) (ks : List ℕ) :
    removeKeys m (k :: ks) = removeKeys (eraseSent m k) ks := rfl

theorem lookupSent_removeKeys_none {m : List (ℕ × SentPacket)} {pn : ℕ} (ks : List ℕ)
    (h : lookupSent m pn = none) : lookupSent (removeKeys m ks) pn = none := by
  induction ks generalizing m with
  | nil => exact h
  | cons k ks ih => exact ih (lookupSent_eraseSent_none k h)

theorem lookupSent_removeKeys_mem {m : List (ℕ × SentPacket)} {pn : ℕ} {ks : List ℕ}
    (h : pn ∈ ks) : lookupSent (removeKeys m ks) pn = none := by
  induction ks generalizing m with
  | nil => simp at h
  | cons k ks ih =>
    rw [removeKeys_cons]
    rcases List.mem_cons.mp h with h | h
    · subst h
      exact lookupSent_removeKeys_none ks (lookupSent_eraseSent_self m pn)
    · exact ih h

theorem removeKeys_sublist (m : List (ℕ × SentPacket)) (ks : List ℕ) :
    (removeKeys m ks).Sublist m := by
  induction ks generalizing m with
  | nil => exact List.Sublist.refl m
  | cons k ks ih =>
    rw [removeKeys_cons]
    exact (ih (eraseSent m k)).trans (List.filter_sublist m)

theorem countHS_le_of_sublist {l1 l2 : List (ℕ × SentPacket)} (h : l1.Sublist l2) :
    countHS l1 ≤ countHS l2 :=
  List.Sublist.length_le (List.Sublist.filter _ h)

theorem retrEntries_nil : retrEntries [] = [] := rfl

theorem retrEntries_cons_pos {kv : ℕ × SentPacket} (l : List (ℕ × SentPacket))
    (h : kv.2.packet.isRetransmittable) : retrEntries (kv :: l) = kv :: retrEntries l := by
  simp [retrEntries, List.filter_cons, h]

theorem retrEntries_cons_neg {kv : ℕ × SentPacket} (l : List (ℕ × SentPacket))
    (h : ¬ kv.2.packet.isRetransmittable) : retrEntries (kv :: l) = retrEntries l := by
  simp [retrEntries, List.filter_cons, h]

theorem retrEntries_append (l1 l2 : List (ℕ × SentPacket)) :
    retrEntries (l1 ++ l2) = retrEntries l1 ++ retrEntries l2 := by
  simp [retrEntries]

theorem sendPacketsInSpace_spec (space : KPacketNumberSpace) (amount : ℕ) :
    ∀ (K : List ℕ) (c : ℕ) (s : LDState),
      K.Nodup →
      K.Sublist (keysOf (s.sentPackets.get space)) →
      (keysOf (s.sentPackets.get space)).Nodup →
      placedMap space (s.sentPackets.get space) →
      c < amount →
      (sendPacketsInSpace space amount K c s).events =
          ((retrEntries (entriesAt (s.sentPackets.get space) K)).take (amount - c)).map
            (fun kv => LDEvent.retransmitPacketEvent kv.2.packet) ∧
        (sendPacketsInSpace space amount K c s).state.sentPackets =
          s.sentPackets.set space (removeKeys (s.sentPackets.get space)
            (((retrEntries (entriesAt (s.sentPackets.get space) K)).take (amount - c)).map
              Prod.fst)) ∧
        (sendPacketsInSpace space amount K c s).sendCount =
          c + ((retrEntries (entriesAt (s.sentPackets.get space) K)).take (amount - c)).length ∧
        (sendPacketsInSpace space amount K c s).stopped =
          decide (amount ≤ c + (retrEntries (entriesAt (s.sentPackets.get space) K)).length) := by
  intro K
  induction K with
  | nil =>
    intro c s hKnd hsub hnd hpl hc
    refine ⟨?_, ?_, ?_, ?_⟩
    · simp [sendPacketsInSpace, entriesAt_nil, retrEntries_nil]
    · simp [sendPacketsInSpace, entriesAt_nil, retrEntries_nil, removeKeys_nil,
        PerSpace.set_get]
    · simp [sendPacketsInSpace, entriesAt_nil, retrEntries_nil]
    · simp only [sendPacketsInSpace, entriesAt_nil, retrEntries_nil, List.length_nil,
        Nat.add_zero]
      symm
      rw [decide_eq_false_iff_not]
      omega
  | cons k K ih =>
    intro c s hKnd hsub hnd hpl hc
    have hkmem : k ∈ keysOf (s.sentPackets.get space) :=
      hsub.subset (List.mem_cons_self _ _)
    obtain ⟨e, hlk⟩ : ∃ e, lookupSent (s.sentPackets.get space) k = some e := by
      cases hle : lookupSent (s.sentPackets.get space) k with
      | none => exact absurd hkmem (lookupSent_eq_none.mp hle)
      | some e => exact ⟨e, rfl⟩
    have hplk := hpl (k, e) (lookupSent_mem hlk)
    have hpk : k = e.packet.pn := hplk.1
    have hps : findPacketSpaceFromPacket e.packet = space := hplk.2
    rw [List.nodup_cons] at hKnd
    have hE : entriesAt (s.sentPackets.get space) (k :: K) =
        (k, e) :: entriesAt (s.sentPackets.get space) K := entriesAt_cons_some K hlk
    simp only [sendPacketsInSpace, hlk]
    by_cases hre : e.packet.isRetransmittable
    · rw [if_pos hre]
      have hRE : retrEntries (entriesAt (s.sentPackets.get space) (k :: K)) =
          (k, e) :: retrEntries (entriesAt (s.sentPackets.get space) K) := by
        rw [hE, retrEntries_cons_pos _ hre]
      have hlk2 : lookupSent (s.sentPackets.get space) e.packet.pn = some e := by
        rw [← hpk]
        exact hlk
      have hrm := removeFromSentPackets_some hlk2
      by_cases hstop : c + 1 = amount
      · rw [if_pos hstop]
        have hamc : amount - c = 1 := by omega
        have htake : (retrEntries (entriesAt (s.sentPackets.get space) (k :: K))).take
            (amount - c) = [(k, e)] := by
          rw [hRE, hamc]
          rfl
        refine ⟨?_, ?_, ?_, ?_⟩
        · rw [htake]
          simp [retransmitPacket, hre]
        · rw [htake]
          show (removeFromSentPackets space e.packet.pn s).sentPackets = _
          rw [hrm]
          show s.sentPackets.set space (eraseSent (s.sentPackets.get space) e.packet.pn) = _
          rw [← hpk]
          rfl
        · rw [htake]
          rfl
        · rw [hRE]
          symm
          rw [decide_eq_true_eq]
          simp only [List.length_cons]
          omega
      · rw [if_neg hstop]
        have hc1 : c + 1 < amount := by omega
        have hmap2 : (removeFromSentPackets space e.packet.pn s).sentPackets =
            s.sentPackets.set space (eraseSent (s.sentPackets.get space) e.packet.pn) := by
          rw [hrm]
        have hget2 : (removeFromSentPackets space e.packet.pn s).sentPackets.get space =
            eraseSent (s.sentPackets.get space) k := by
          rw [hmap2, PerSpace.get_set_self, ← hpk]
        have hknotK : k ∉ K := hKnd.1
        have hfilter : K = K.filter (fun a => a != k) := by
          symm
          apply List.filter_eq_self.mpr
          intro a ha
          simp only [bne_iff_ne, ne_eq, decide_eq_true_eq]
          intro he
          exact hknotK (he ▸ ha)
        have hsubK : K.Sublist
            (keysOf ((removeFromSentPackets space e.packet.pn s).sentPackets.get space)) := by
          rw [hget2, keysOf_eraseSent]
          conv_lhs => rw [hfilter]
          exact List.Sublist.filter _ (List.sublist_of_cons_sublist hsub)
        have hnd2 : (keysOf ((removeFromSentPackets space e.packet.pn s).sentPackets.get
            space)).Nodup := by
          rw [hget2]
          exact nodup_keysOf_eraseSent _ hnd
        have hpl2 : placedMap space
            ((removeFromSentPackets space e.packet.pn s).sentPackets.get space) := by
          rw [hget2]
          exact placedMap_eraseSent _ hpl
        obtain ⟨ihev, ihst, ihsc, ihstop⟩ :=
          ih (c + 1) (removeFromSentPackets space e.packet.pn s) hKnd.2 hsubK hnd2 hpl2 hc1
        have hEE : entriesAt ((removeFromSentPackets space e.packet.pn s).sentPackets.get
            space) K = entriesAt (s.sentPackets.get space) K := by
          rw [hget2]
          exact entriesAt_congr (fun k2 hk2 =>
            lookupSent_eraseSent_ne _ (fun he => hknotK (he ▸ hk2)))
        rw [hEE] at ihev ihst ihsc ihstop
        have hsucc : amount - c = (amount - (c + 1)) + 1 := by omega
        refine ⟨?_, ?_, ?_, ?_⟩
        · show retransmitPacket e ++
            (sendPacketsInSpace space amount K (c + 1)
              (removeFromSentPackets space e.packet.pn s)).events = _
          rw [ihev, hRE, hsucc, List.take_succ_cons, List.map_cons]
          simp [retransmitPacket, hre]
        · show (sendPacketsInSpace space amount K (c + 1)
            (removeFromSentPackets space e.packet.pn s)).state.sentPackets = _
          rw [ihst, hget2, hmap2, PerSpace.set_set, hRE, hsucc, List.take_succ_cons,
            List.map_cons, removeKeys_cons]
        · show (sendPacketsInSpace space amount K (c + 1)
            (removeFromSentPackets space e.packet.pn s)).sendCount = _
          rw [ihsc, hRE, hsucc, List.take_succ_cons, List.length_cons]
          omega
        · show (sendPacketsInSpace space amount K (c + 1)
            (removeFromSentPackets space e.packet.pn s)).stopped = _
          rw [ihstop, hRE, List.length_cons]
          congr 1
          rw [eq_iff_iff]
          constructor <;> intro h <;> omega
    · rw [if_neg hre]
      have hsubK : K.Sublist (keysOf (s.sentPackets.get space)) :=
        List.sublist_of_cons_sublist hsub
      obtain ⟨ihev, ihst, ihsc, ihstop⟩ := ih c s hKnd.2 hsubK hnd hpl hc
      have hRE : retrEntries (entriesAt (s.sentPackets.get space) (k :: K)) =
          retrEntries (entriesAt (s.sentPackets.get space) K) := by
        rw [hE, retrEntries_cons_neg _ hre]
      rw [hRE]
      exact ⟨ihev, ihst, ihsc, ihstop⟩

theorem lookupSent_none_of_sublist {l1 l2 : List (ℕ × SentPacket)} {pn : ℕ}
    (hs : l1.Sublist l2) (h : lookupSent l2 pn = none) : lookupSent l1 pn = none := by
  rw [lookupSent_eq_none] at h ⊢
  intro hmem
  exact h ((hs.map Prod.fst).subset hmem)

theorem removeFromSentPackets_get_sublist (space : KPacketNumberSpace) (pn : ℕ)
    (s : LDState) (sp2 : KPacketNumberSpace) :
    ((removeFromSentPackets space pn s).sentPackets.get sp2).Sublist
      (s.sentPackets.get sp2) := by
  cases h : lookupSent (s.sentPackets.get space) pn with
  | none => rw [removeFromSentPackets_none h]
  | some sp =>
    rw [removeFromSentPackets_some h]
    show ((s.sentPackets.set space (eraseSent (s.sentPackets.get space) pn)).get sp2).Sublist _
    by_cases hsp : sp2 = space
    · subst hsp
      rw [PerSpace.get_set_self]
      exact List.filter_sublist _
    · rw [PerSpace.get_set_ne _ _ hsp]

theorem removeFromSentPackets_get_other {space : KPacketNumberSpace} (pn : ℕ)
    (s : LDState) {sp2 : KPacketNumberSpace} (hne : sp2 ≠ space) :
    (removeFromSentPackets space pn s).sentPackets.get sp2 = s.sentPackets.get sp2 := by
  cases h : lookupSent (s.sentPackets.get space) pn with
  | none => rw [removeFromSentPackets_none h]
  | some sp =>
    rw [removeFromSentPackets_some h]
    show (s.sentPackets.set space (eraseSent (s.sentPackets.get space) pn)).get sp2 = _
    rw [PerSpace.get_set_ne _ _ hne]

theorem sendPacketsInSpace_maps_sublist (space : KPacketNumberSpace) (amount : ℕ) :
    ∀ (K : List ℕ) (c : ℕ) (s : LDState) (sp2 : KPacketNumberSpace),
      ((sendPacketsInSpace space amount K c s).state.sentPackets.get sp2).Sublist
        (s.sentPackets.get sp2) := by
  intro K
  induction K with
  | nil => intro c s sp2; exact List.Sublist.refl _
  | cons k K ih =>
    intro c s sp2
    simp only [sendPacketsInSpace]
    cases h : lookupSent (s.sentPackets.get space) k with
    | none => exact ih c s sp2
    | some sp =>
      by_cases hre : sp.packet.isRetransmittable
      · simp only [hre, if_true]
        by_cases hstop : c + 1 = amount
        · simp only [hstop, if_true]
          exact removeFromSentPackets_get_sublist space sp.packet.pn s sp2
        · simp only [hstop, if_false]
          exact (ih (c + 1) (removeFromSentPackets space sp.packet.pn s) sp2).trans
            (removeFromSentPackets_get_sublist space sp.packet.pn s sp2)
      · simp only [hre, Bool.false_eq_true, if_false]
        exact ih c s sp2

theorem sendPacketsInSpace_get_other (space : KPacketNumberSpace) (amount : ℕ) :
    ∀ (K : List ℕ) (c : ℕ) (s : LDState) (sp2 : KPacketNumberSpace), sp2 ≠ space →
      (sendPacketsInSpace space amount K c s).state.sentPackets.get sp2 =
        s.sentPackets.get sp2 := by
  intro K
  induction K with
  | nil => intro c s sp2 hne; rfl
  | cons k K ih =>
    intro c s sp2 hne
    simp only [sendPacketsInSpace]
    cases h : lookupSent (s.sentPackets.get space) k with
    | none => exact ih c s sp2 hne
    | some sp =>
      by_cases hre : sp.packet.isRetransmittable
      · simp only [hre, if_true]
        by_cases hstop : c + 1 = amount
        · simp only [hstop, if_true]
          exact removeFromSentPackets_get_other sp.packet.pn s hne
        · simp only [hstop, if_false]
          rw [ih (c + 1) (removeFromSentPackets space sp.packet.pn s) sp2 hne]
          exact removeFromSentPackets_get_other sp.packet.pn s hne
      · simp only [hre, Bool.false_eq_true, if_false]
        exact ih c s sp2 hne

theorem sendPacketsInSpace_emitted (space : KPacketNumberSpace) (amount : ℕ) :
    ∀ (K : List ℕ) (c : ℕ) (s : LDState) (p : BasePacket),
      LDEvent.retransmitPacketEvent p ∈ (sendPacketsInSpace space amount K c s).events →
      (∃ kv, kv ∈ s.sentPackets.get space ∧ kv.2.packet = p) ∧
        lookupSent ((sendPacketsInSpace space amount K c s).state.sentPackets.get space)
          p.pn = none := by
  intro K
  induction K with
  | nil => intro c s p hp; simp [sendPacketsInSpace] at hp
  | cons k K ih =>
    intro c s p hp
    simp only [sendPacketsInSpace] at hp ⊢
    cases h : lookupSent (s.sentPackets.get space) k with
    | none =>
      rw [h] at hp
      exact ih c s p hp
    | some sp =>
      rw [h] at hp
      by_cases hre : sp.packet.isRetransmittable
      · simp only [hre, if_true] at hp ⊢
        have hev : retransmitPacket sp = [LDEvent.retransmitPacketEvent sp.packet] := by
          simp [retransmitPacket, hre]
        by_cases hstop : c + 1 = amount
        · simp only [hstop, if_true] at hp ⊢
          rw [hev] at hp
          have hpp : p = sp.packet := by
            have := List.mem_singleton.mp hp
            injection this
          subst hpp
          refine ⟨⟨(k, sp), lookupSent_mem h, rfl⟩, ?_⟩
          cases h2 : lookupSent (s.sentPackets.get space) sp.packet.pn with
          | none => rw [removeFromSentPackets_none h2]; exact h2
          | some sp2 =>
            rw [removeFromSentPackets_some h2]
            show lookupSent ((s.sentPackets.set space
              (eraseSent (s.sentPackets.get space) sp.packet.pn)).get space) sp.packet.pn = none
            rw [PerSpace.get_set_self]
            exact lookupSent_eraseSent_self _ _
        · simp only [hstop, if_false] at hp ⊢
          rw [hev] at hp
          rcases List.mem_append.mp hp with hp | hp
          · have hpp : p = sp.packet := by
              have := List.mem_singleton.mp hp
              injection this
            subst hpp
            refine ⟨⟨(k, sp), lookupSent_mem h, rfl⟩, ?_⟩
            have habs : lookupSent ((removeFromSentPackets space sp.packet.pn
                s).sentPackets.get space) sp.packet.pn = none := by
              cases h2 : lookupSent (s.sentPackets.get space) sp.packet.pn with
              | none => rw [removeFromSentPackets_none h2]; exact h2
              | some sp2 =>
                rw [removeFromSentPackets_some h2]
                show lookupSent ((s.sentPackets.set space
                  (eraseSent (s.sentPackets.get space) sp.packet.pn)).get space)
                  sp.packet.pn = none
                rw [PerSpace.get_set_self]
                exact lookupSent_eraseSent_self _ _
            exact lookupSent_none_of_sublist
              (sendPacketsInSpace_maps_sublist space amount K (c + 1)
                (removeFromSentPackets space sp.packet.pn s) space) habs
          · obtain ⟨⟨kv, hkv, hkvp⟩, habs⟩ :=
              ih (c + 1) (removeFromSentPackets space sp.packet.pn s) p hp
            refine ⟨⟨kv, ?_, hkvp⟩, habs⟩
            exact (removeFromSentPackets_get_sublist space sp.packet.pn s space).subset hkv
      · simp only [hre, Bool.false_eq_true, if_false] at hp ⊢
        exact ih c s p hp

theorem sendPackets_shape (amount : ℕ) (s : LDState) :
    ∃ m a c, (sendPackets amount s).2 =
      { s with sentPackets := m, ackElicitingPacketsOutstanding := a,
               cryptoOutstanding := c } := by
  simp only [sendPackets]
  obtain ⟨m1, a1, c1, h1⟩ :=
    sendPacketsInSpace_shape .initial amount (keysOf (s.sentPackets.get .initial)) 0 s
  generalize hg1 : sendPacketsInSpace .initial amount
    (keysOf (s.sentPackets.get .initial)) 0 s = r1 at h1 ⊢
  by_cases hs1 : r1.stopped
  · simp only [hs1, if_true]
    exact ⟨m1, a1, c1, h1⟩
  · simp only [Bool.not_eq_true] at hs1
    simp only [hs1, Bool.false_eq_true, if_false]
    obtain ⟨m2, a2, c2, h2⟩ := sendPacketsInSpace_shape .handshake amount
      (keysOf (r1.state.sentPackets.get .handshake)) r1.sendCount r1.state
    generalize hg2 : sendPacketsInSpace .handshake amount
      (keysOf (r1.state.sentPackets.get .handshake)) r1.sendCount r1.state = r2 at h2 ⊢
    by_cases hs2 : r2.stopped
    · simp only [hs2, if_true]
      refine ⟨m2, a2, c2, ?_⟩
      rw [h2, h1]
    · simp only [Bool.not_eq_true] at hs2
      simp only [hs2, Bool.false_eq_true, if_false]
      obtain ⟨m3, a3, c3, h3⟩ := sendPacketsInSpace_shape .applicationData amount
        (keysOf (r2.state.sentPackets.get .applicationData)) r2.sendCount r2.state
      refine ⟨m3, a3, c3, ?_⟩
      rw [h3, h2, h1]

theorem sendPackets_frame (amount : ℕ) (s : LDState) :
    (sendPackets amount s).2.lossDetectionAlarm = s.lossDetectionAlarm ∧
      (sendPackets amount s).2.ptoCount = s.ptoCount ∧
      (sendPackets amount s).2.cryptoCount = s.cryptoCount ∧
      (sendPackets amount s).2.lossTime = s.lossTime ∧
      (sendPackets amount s).2.rtt = s.rtt ∧
      (sendPackets amount s).2.timeOfLastSentAckElicitingPacket =
        s.timeOfLastSentAckElicitingPacket ∧
      (sendPackets amount s).2.timeOfLastSentCryptoPacket = s.timeOfLastSentCryptoPacket ∧
      (sendPackets amount s).2.largestAckedPacket = s.largestAckedPacket := by
  obtain ⟨m, a, c, h⟩ := sendPackets_shape amount s
  rw [h]
  exact ⟨rfl, rfl, rfl, rfl, rfl, rfl, rfl, rfl⟩

theorem sendPackets_get_sublist (amount : ℕ) (s : LDState) (sp2 : KPacketNumberSpace) :
    ((sendPackets amount s).2.sentPackets.get sp2).Sublist (s.sentPackets.get sp2) := by
  simp only [sendPackets]
  have h1 := sendPacketsInSpace_maps_sublist .initial amount
    (keysOf (s.sentPackets.get .initial)) 0 s sp2
  generalize hg1 : sendPacketsInSpace .initial amount
    (keysOf (s.sentPackets.get .initial)) 0 s = r1 at h1 ⊢
  by_cases hs1 : r1.stopped
  · simp only [hs1, if_true]
    exact h1
  · simp only [Bool.not_eq_true] at hs1
    simp only [hs1, Bool.false_eq_true, if_false]
    have h2 := sendPacketsInSpace_maps_sublist .handshake amount
      (keysOf (r1.state.sentPackets.get .handshake)) r1.sendCount r1.state sp2
    generalize hg2 : sendPacketsInSpace .handshake amount
      (keysOf (r1.state.sentPackets.get .handshake)) r1.sendCount r1.state = r2 at h2 ⊢
    by_cases hs2 : r2.stopped
    · simp only [hs2, if_true]
      exact h2.trans h1
    · simp only [Bool.not_eq_true] at hs2
      simp only [hs2, Bool.false_eq_true, if_false]
      have h3 := sendPacketsInSpace_maps_sublist .applicationData amount
        (keysOf (r2.state.sentPackets.get .applicationData)) r2.sendCount r2.state sp2
      exact (h3.trans h2).trans h1

theorem sendPackets_emitted (amount : ℕ) {s : LDState} (hnd : nodupMaps s)
    (hpl : placedMaps s) (p : BasePacket)
    (hp : LDEvent.retransmitPacketEvent p ∈ (sendPackets amount s).1) :
    lookupSent ((sendPackets amount s).2.sentPackets.get
      (findPacketSpaceFromPacket p)) p.pn = none := by
  obtain ⟨hn1, ha1x, hc1x, hp1x⟩ :=
    sendPacketsInSpace_pres .initial amount (keysOf (s.sentPackets.get .initial)) 0 s hnd
  have hpl1 := hp1x hpl
  have hem1 := sendPacketsInSpace_emitted .initial amount
    (keysOf (s.sentPackets.get .initial)) 0 s p
  simp only [sendPackets] at hp ⊢
  generalize hg1 : sendPacketsInSpace .initial amount
    (keysOf (s.sentPackets.get .initial)) 0 s = r1 at hp hn1 hpl1 hem1 ⊢
  by_cases hs1 : r1.stopped
  · simp only [hs1, if_true] at hp ⊢
    obtain ⟨⟨kv, hkv, hkvp⟩, habs⟩ := hem1 hp
    have hsp : findPacketSpaceFromPacket p = .initial := by
      rw [← hkvp]
      exact ((placedMaps_get hpl .initial) kv hkv).2
    rw [hsp]
    exact habs
  · simp only [Bool.not_eq_true] at hs1
    simp only [hs1, Bool.false_eq_true, if_false] at hp ⊢
    obtain ⟨hn2, ha2x, hc2x, hp2x⟩ := sendPacketsInSpace_pres .handshake amount
      (keysOf (r1.state.sentPackets.get .handshake)) r1.sendCount r1.state hn1
    have hpl2 := hp2x hpl1
    have hem2 := sendPacketsInSpace_emitted .handshake amount
      (keysOf (r1.state.sentPackets.get .handshake)) r1.sendCount r1.state p
    have hoth2 := sendPacketsInSpace_get_other .handshake amount
      (keysOf (r1.state.sentPackets.get .handshake)) r1.sendCount r1.state
    generalize hg2 : sendPacketsInSpace .handshake amount
      (keysOf (r1.state.sentPackets.get .handshake)) r1.sendCount r1.state = r2
      at hp hn2 hpl2 hem2 hoth2 ⊢
    by_cases hs2 : r2.stopped
    · simp only [hs2, if_true] at hp ⊢
      rcases List.mem_append.mp hp with hp | hp
      · obtain ⟨⟨kv, hkv, hkvp⟩, habs⟩ := hem1 hp
        have hsp : findPacketSpaceFromPacket p = .initial := by
          rw [← hkvp]
          exact ((placedMaps_get hpl .initial) kv hkv).2
        rw [hsp, hoth2 .initial (by decide)]
        exact habs
      · obtain ⟨⟨kv, hkv, hkvp⟩, habs⟩ := hem2 hp
        have hsp : findPacketSpaceFromPacket p = .handshake := by
          rw [← hkvp]
          exact ((placedMaps_get hpl1 .handshake) kv hkv).2
        rw [hsp]
        exact habs
    · simp only [Bool.not_eq_true] at hs2
      simp only [hs2, Bool.false_eq_true, if_false] at hp ⊢
      have hem3 := sendPacketsInSpace_emitted .applicationData amount
        (keysOf (r2.state.sentPackets.get .applicationData)) r2.sendCount r2.state p
      have hoth3 := sendPacketsInSpace_get_other .applicationData amount
        (keysOf (r2.state.sentPackets.get .applicationData)) r2.sendCount r2.state
      generalize hg3 : sendPacketsInSpace .applicationData amount
        (keysOf (r2.state.sentPackets.get .applicationData)) r2.sendCount r2.state = r3
        at hp hem3 hoth3 ⊢
      rcases List.mem_append.mp hp with hp | hp
      · rcases List.mem_append.mp hp with hp | hp
        · obtain ⟨⟨kv, hkv, hkvp⟩, habs⟩ := hem1 hp
          have hsp : findPacketSpaceFromPacket p = .initial := by
            rw [← hkvp]
            exact ((placedMaps_get hpl .initial) kv hkv).2
          rw [hsp, hoth3 .initial (by decide), hoth2 .initial (by decide)]
          exact habs
        · obtain ⟨⟨kv, hkv, hkvp⟩, habs⟩ := hem2 hp
          have hsp : findPacketSpaceFromPacket p = .handshake := by
            rw [← hkvp]
            exact ((placedMaps_get hpl1 .handshake) kv hkv).2
          rw [hsp, hoth3 .handshake (by decide)]
          exact habs
      · obtain ⟨⟨kv, hkv, hkvp⟩, habs⟩ := hem3 hp
        have hsp : findPacketSpaceFromPacket p = .applicationData := by
          rw [← hkvp]
          exact ((placedMaps_get hpl2 .applicationData) kv hkv).2
        rw [hsp]
        exact habs

theorem take_append3 {α : Type} (A B C : List α) (n : ℕ) :
    (A ++ B ++ C).take n =
      A.take n ++ B.take (n - A.length) ++ C.take (n - A.length - B.length) := by
  rw [List.take_append_eq_append_take, List.take_append_eq_append_take,
    List.length_append, List.append_assoc, List.append_assoc, Nat.sub_sub]

theorem sendPackets_events (amount : ℕ) {s : LDState} (hnd : nodupMaps s)
    (hpl : placedMaps s) (h0 : 0 < amount) :
    (sendPackets amount s).1 =
      ((retrEntries (s.sentPackets.get .initial ++ s.sentPackets.get .handshake ++
          s.sentPackets.get .applicationData)).take amount).map
        (fun kv => LDEvent.retransmitPacketEvent kv.2.packet) := by
  have hRHS : retrEntries (s.sentPackets.get .initial ++ s.sentPackets.get .handshake ++
      s.sentPackets.get .applicationData) =
      retrEntries (s.sentPackets.get .initial) ++ retrEntries (s.sentPackets.get .handshake)
        ++ retrEntries (s.sentPackets.get .applicationData) := by
    rw [retrEntries_append, retrEntries_append]
  rw [hRHS, take_append3]
  obtain ⟨e1, st1, sc1, sp1⟩ := sendPacketsInSpace_spec .initial amount
    (keysOf (s.sentPackets.get .initial)) 0 s (nodupMaps_get hnd .initial)
    (List.Sublist.refl _) (nodupMaps_get hnd .initial) (placedMaps_get hpl .initial) h0
  rw [entriesAt_self (nodupMaps_get hnd .initial)] at e1 st1 sc1 sp1
  simp only [sendPackets]
  generalize hg1 : sendPacketsInSpace .initial amount
    (keysOf (s.sentPackets.get .initial)) 0 s = r1 at e1 st1 sc1 sp1 ⊢
  by_cases hs1 : r1.stopped
  · simp only [hs1, if_true]
    have hlen1 : amount ≤ (retrEntries (s.sentPackets.get .initial)).length := by
      have := of_decide_eq_true (sp1 ▸ hs1)
      omega
    rw [e1, Nat.sub_zero,
      show amount - (retrEntries (s.sentPackets.get .initial)).length = 0 from by omega,
      List.take_zero, List.append_nil, Nat.zero_sub, List.take_zero, List.append_nil]
  · simp only [Bool.not_eq_true] at hs1
    simp only [hs1, Bool.false_eq_true, if_false]
    have hlen1 : (retrEntries (s.sentPackets.get .initial)).length < amount := by
      have := of_decide_eq_false (sp1 ▸ hs1)
      omega
    have htake1 : (retrEntries (s.sentPackets.get .initial)).take amount =
        retrEntries (s.sentPackets.get .initial) := List.take_of_length_le (by omega)
    have hget2 : r1.state.sentPackets.get .handshake = s.sentPackets.get .handshake := by
      rw [st1]
      show (s.sentPackets.set KPacketNumberSpace.initial _).get KPacketNumberSpace.handshake = _
      exact PerSpace.get_set_ne _ _ (by decide)
    have hsc1 : r1.sendCount = (retrEntries (s.sentPackets.get .initial)).length := by
      rw [sc1, Nat.sub_zero, htake1]
      omega
    obtain ⟨e2, st2, sc2, sp2⟩ := sendPacketsInSpace_spec .handshake amount
      (keysOf (r1.state.sentPackets.get .handshake)) r1.sendCount r1.state
      (by rw [hget2]; exact nodupMaps_get hnd .handshake) (List.Sublist.refl _)
      (by rw [hget2]; exact nodupMaps_get hnd .handshake)
      (by rw [hget2]; exact placedMaps_get hpl .handshake) (by omega)
    generalize hg2 : sendPacketsInSpace .handshake amount
      (keysOf (r1.state.sentPackets.get .handshake)) r1.sendCount r1.state = r2
      at e2 st2 sc2 sp2 ⊢
    rw [hget2, entriesAt_self (nodupMaps_get hnd .handshake), hsc1] at e2 st2 sc2 sp2
    by_cases hs2 : r2.stopped
    · simp only [hs2, if_true]
      have hlen2 : amount ≤ (retrEntries (s.sentPackets.get .initial)).length +
          (retrEntries (s.sentPackets.get .handshake)).length := by
        have := of_decide_eq_true (sp2 ▸ hs2)
        omega
      rw [e1, e2, Nat.sub_zero, htake1,
        show amount - (retrEntries (s.sentPackets.get .initial)).length -
          (retrEntries (s.sentPackets.get .handshake)).length = 0 from by omega,
        List.take_zero, List.append_nil, List.map_append]
    · simp only [Bool.not_eq_true] at hs2
      simp only [hs2, Bool.false_eq_true, if_false]
      have hlen2 : (retrEntries (s.sentPackets.get .initial)).length +
          (retrEntries (s.sentPackets.get .handshake)).length < amount := by
        have := of_decide_eq_false (sp2 ▸ hs2)
        omega
      have htake2 : (retrEntries (s.sentPackets.get .handshake)).take
          (amount - (retrEntries (s.sentPackets.get .initial)).length) =
          retrEntries (s.sentPackets.get .handshake) := List.take_of_length_le (by omega)
      have hgetA : r2.state.sentPackets.get .applicationData =
          s.sentPackets.get .applicationData := by
        rw [st2, st1]
        show ((s.sentPackets.set KPacketNumberSpace.initial _).set
          KPacketNumberSpace.handshake _).get KPacketNumberSpace.applicationData = _
        rw [PerSpace.get_set_ne _ _ (by decide), PerSpace.get_set_ne _ _ (by decide)]
      have hsc2 : r2.sendCount = (retrEntries (s.sentPackets.get .initial)).length +
          (retrEntries (s.sentPackets.get .handshake)).length := by
        rw [sc2, htake2]
      obtain ⟨e3, st3, sc3, sp3⟩ := sendPacketsInSpace_spec .applicationData amount
        (keysOf (r2.state.sentPackets.get .applicationData)) r2.sendCount r2.state
        (by rw [hgetA]; exact nodupMaps_get hnd .applicationData) (List.Sublist.refl _)
        (by rw [hgetA]; exact nodupMaps_get hnd .applicationData)
        (by rw [hgetA]; exact placedMaps_get hpl .applicationData) (by omega)
      rw [e1, e2, e3, hgetA, entriesAt_self (nodupMaps_get hnd .applicationData), hsc2,
        Nat.sub_zero, htake1, htake2, List.map_append, List.map_append, Nat.sub_sub]

/-! PTO-mode characterization of the alarm handler. -/

theorem getEarliestLossTime_zero {s : LDState} (h : s.lossTime = ⟨0, 0, 0⟩) :
    getEarliestLossTime s = (0, KPacketNumberSpace.initial) := by
  simp [getEarliestLossTime, h, PerSpace.get]

theorem setLossDetectionAlarm_none (now : ℚ) (s : LDState)
    (h : s.ackElicitingPacketsOutstanding = 0) :
    (setLossDetectionAlarm now s).lossDetectionAlarm = none := by
  simp [setLossDetectionAlarm, h]

theorem setLossDetectionAlarm_pto (now : ℚ) (s : LDState)
    (hc : s.cryptoOutstanding = 0) (hlt : s.lossTime = ⟨0, 0, 0⟩)
    (halarm : s.lossDetectionAlarm = none) :
    (setLossDetectionAlarm now s).lossDetectionAlarm =
      if s.ackElicitingPacketsOutstanding = 0 then none
      else some (now + max (s.rtt.smoothedRtt + s.rtt.rttVar * 4 + s.rtt.maxAckDelay)
        kGranularity * 2 ^ s.ptoCount) := by
  by_cases ha : s.ackElicitingPacketsOutstanding = 0
  · rw [if_pos ha]
    exact setLossDetectionAlarm_none now s ha
  · rw [if_neg ha]
    simp only [setLossDetectionAlarm]
    rw [if_neg ha, hc, getEarliestLossTime_zero hlt, halarm]
    simp

theorem onLossDetectionAlarm_pto (now : ℚ) (s : LDState)
    (hc0 : s.cryptoOutstanding = 0) (hlt : s.lossTime = ⟨0, 0, 0⟩) :
    onLossDetectionAlarm now s =
      ((sendPackets 2 s).1,
        setLossDetectionAlarm now
          { (sendPackets 2 s).2 with ptoCount := (sendPackets 2 s).2.ptoCount + 1 }) := by
  simp only [onLossDetectionAlarm]
  rw [hc0, getEarliestLossTime_zero hlt]
  simp

theorem sendPackets_cryptoOut_zero (amount : ℕ) {s : LDState} (hnd : nodupMaps s)
    (hci : cryptoInv s) (hc0 : s.cryptoOutstanding = 0) :
    (sendPackets amount s).2.cryptoOutstanding = 0 := by
  have hci2 := (sendPackets_pres amount hnd).2.2.1 hci
  have hI := countHS_le_of_sublist (sendPackets_get_sublist amount s .initial)
  have hH := countHS_le_of_sublist (sendPackets_get_sublist amount s .handshake)
  have hA := countHS_le_of_sublist (sendPackets_get_sublist amount s .applicationData)
  unfold cryptoInv totalHS at hci hci2
  omega

/-! Lemmas tracing acknowledgement events back to recorded packets. -/

theorem lookupSent_some_mem {m : List (ℕ × SentPacket)} {pn : ℕ} {e : SentPacket}
    (h : lookupSent m pn = some e) : (pn, e) ∈ m := by
  unfold lookupSent at h
  rcases hf : m.find? (fun kv => kv.1 == pn) with _ | kv
  · rw [hf] at h
    simp at h
  · rw [hf] at h
    simp at h
    have hmem := List.mem_of_find?_eq_some hf
    have hkey := List.find?_some hf
    have h1 : kv.1 = pn := by simpa using hkey
    rw [← h1, ← h]
    exact hmem

theorem updateRtt_events_only (now : ℚ) (ack : AckFrame) (s : LDState) (e : LDEvent)
    (h : e ∈ (updateRtt now ack s).2) : e = LDEvent.rttUpdated := by
  simp only [updateRtt] at h
  rcases hl : lookupSent (s.sentPackets.get (findPacketSpaceFromAckFrame ack))
      ack.largestAcknowledged with _ | sp
  · rw [hl] at h
    simp at h
  · rw [hl] at h
    by_cases hr : sp.isRetransmittable
    · simp [hr] at h
      exact h
    · simp [hr] at h

theorem ackSpacesFold_mem {s : LDState} {pn : ℕ} {p : BasePacket}
    (spaces : List KPacketNumberSpace) :
    ∀ acc : List BasePacket,
      p ∈ spaces.foldl (fun acc2 space =>
          match lookupSent (s.sentPackets.get space) pn with
          | some foundPacket => acc2 ++ [foundPacket.packet]
          | none => acc2) acc →
        p ∈ acc ∨ ∃ space sp, lookupSent (s.sentPackets.get space) pn = some sp ∧
          sp.packet = p := by
  induction spaces with
  | nil =>
    intro acc h
    exact Or.inl h
  | cons sp0 rest ih =>
    intro acc h
    rw [List.foldl_cons] at h
    rcases ih _ h with h2 | h2
    · rcases hl : lookupSent (s.sentPackets.get sp0) pn with _ | fp
      · refine Or.inl ?_
        have h2x : p ∈ (match lookupSent (s.sentPackets.get sp0) pn with
          | some foundPacket => acc ++ [foundPacket.packet]
          | none => acc) := h2
        rw [hl] at h2x
        exact h2x
      · have h2x : p ∈ (match lookupSent (s.sentPackets.get sp0) pn with
          | some foundPacket => acc ++ [foundPacket.packet]
          | none => acc) := h2
        rw [hl] at h2x
        have h3 : p ∈ acc ++ [fp.packet] := h2x
        rcases List.mem_append.mp h3 with h4 | h4
        · exact Or.inl h4
        · exact Or.inr ⟨sp0, fp, hl, (List.mem_singleton.mp h4).symm⟩
    · exact Or.inr h2

theorem ackNumbersFold_mem {s : LDState} {p : BasePacket} (l : List ℕ) :
    ∀ acc : List BasePacket,
      p ∈ l.foldl (fun acc pn =>
          [KPacketNumberSpace.initial, .handshake, .applicationData].foldl (fun acc2 space =>
            match lookupSent (s.sentPackets.get space) pn with
            | some foundPacket => acc2 ++ [foundPacket.packet]
            | none => acc2) acc) acc →
        p ∈ acc ∨ ∃ space pn sp, lookupSent (s.sentPackets.get space) pn = some sp ∧
          sp.packet = p := by
  induction l with
  | nil =>
    intro acc h
    exact Or.inl h
  | cons pn0 rest ih =>
    intro acc h
    rw [List.foldl_cons] at h
    rcases ih _ h with h2 | h2
    · have h2x : p ∈ [KPacketNumberSpace.initial, .handshake, .applicationData].foldl
          (fun acc2 space =>
            match lookupSent (s.sentPackets.get space) pn0 with
            | some foundPacket => acc2 ++ [foundPacket.packet]
            | none => acc2) acc := h2
      rcases ackSpacesFold_mem _ acc h2x with h3 | h3
      · exact Or.inl h3
      · obtain ⟨space, sp, hl, hsp⟩ := h3
        exact Or.inr ⟨space, pn0, sp, hl, hsp⟩
    · exact Or.inr h2

theorem determineNewlyAckedPackets_mem {s : LDState} {ack : AckFrame} {p : BasePacket}
    (hp : p ∈ determineNewlyAckedPackets s ack) :
    ∃ space pn sp, lookupSent (s.sentPackets.get space) pn = some sp ∧ sp.packet = p := by
  unfold determineNewlyAckedPackets at hp
  rcases ackNumbersFold_mem _ _ hp with h | h
  · simp at h
  · exact h

/-- Claim C6: when the alarm fires in PTO mode (no crypto data
outstanding, no loss time set, for a well-formed state satisfying the
crypto counter invariant), the handler emits the probe retransmissions of
the first at most two retransmittable recorded packets, scanning Initial,
then Handshake, then ApplicationData, bumps ptoCount by exactly one, and
re-arms the alarm via setLossDetectionAlarm: it is cancelled when nothing
ack-eliciting remains outstanding and otherwise set to now plus the PTO
duration computed with the already incremented ptoCount. -/
theorem claim_C6 (now : ℚ) {s : LDState} (hnd : nodupMaps s) (hpl : placedMaps s)
    (hci : cryptoInv s) (hc0 : s.cryptoOutstanding = 0)
    (hlt : s.lossTime = ⟨0, 0, 0⟩) :
    (alarmFired now s).1 =
      ((retrEntries (s.sentPackets.get .initial ++ s.sentPackets.get .handshake ++
          s.sentPackets.get .applicationData)).take 2).map
        (fun kv => LDEvent.retransmitPacketEvent kv.2.packet) ∧
      (alarmFired now s).1.length ≤ 2 ∧
      (alarmFired now s).2.ptoCount = s.ptoCount + 1 ∧
      (alarmFired now s).2.lossDetectionAlarm =
        (if (alarmFired now s).2.ackElicitingPacketsOutstanding = 0 then none
         else some (now + max (s.rtt.smoothedRtt + s.rtt.rttVar * 4 + s.rtt.maxAckDelay)
           kGranularity * 2 ^ (s.ptoCount + 1))) := by
  have hnd' : nodupMaps { s with lossDetectionAlarm := none } := hnd
  have hpl' : placedMaps { s with lossDetectionAlarm := none } := hpl
  have hci' : cryptoInv { s with lossDetectionAlarm := none } := hci
  have key := onLossDetectionAlarm_pto now { s with lossDetectionAlarm := none } hc0 hlt
  have hfr := sendPackets_frame 2 { s with lossDetectionAlarm := none }
  have hcz := sendPackets_cryptoOut_zero 2 hnd' hci' hc0
  have hev : (sendPackets 2 { s with lossDetectionAlarm := none }).1 =
      ((retrEntries (s.sentPackets.get .initial ++ s.sentPackets.get .handshake ++
          s.sentPackets.get .applicationData)).take 2).map
        (fun kv => LDEvent.retransmitPacketEvent kv.2.packet) :=
    sendPackets_events 2 hnd' hpl' (by norm_num)
  generalize hq : sendPackets 2 { s with lossDetectionAlarm := none } = q
    at key hfr hcz hev
  have key1 : (alarmFired now s).1 = q.1 := by
    show (onLossDetectionAlarm now { s with lossDetectionAlarm := none }).1 = q.1
    rw [key]
  have key2 : (alarmFired now s).2 =
      setLossDetectionAlarm now { q.2 with ptoCount := q.2.ptoCount + 1 } := by
    show (onLossDetectionAlarm now { s with lossDetectionAlarm := none }).2 = _
    rw [key]
  have hfr1 : q.2.lossDetectionAlarm = (none : Option ℚ) := hfr.1
  have hfr2 : q.2.ptoCount = s.ptoCount := hfr.2.1
  have hfr4 : q.2.lossTime = s.lossTime := hfr.2.2.2.1
  have hfr5 : q.2.rtt = s.rtt := hfr.2.2.2.2.1
  have hlt2 : ({ q.2 with ptoCount := q.2.ptoCount + 1 }).lossTime = ⟨0, 0, 0⟩ :=
    hfr4.trans hlt
  have halarm2 : ({ q.2 with ptoCount := q.2.ptoCount + 1 }).lossDetectionAlarm = none :=
    hfr1
  have hcz2 : ({ q.2 with ptoCount := q.2.ptoCount + 1 }).cryptoOutstanding = 0 := hcz
  have hrtt2 : ({ q.2 with ptoCount := q.2.ptoCount + 1 }).rtt = s.rtt := hfr5
  have hpc2 : ({ q.2 with ptoCount := q.2.ptoCount + 1 }).ptoCount = s.ptoCount + 1 := by
    show q.2.ptoCount + 1 = s.ptoCount + 1
    rw [hfr2]
  have hpto2 := setLossDetectionAlarm_pto now { q.2 with ptoCount := q.2.ptoCount + 1 }
    hcz2 hlt2 halarm2
  refine ⟨key1.trans hev, ?_, ?_, ?_⟩
  · rw [key1, hev]
    simp only [List.length_map, List.length_take]
    omega
  · rw [key2, setLossDetectionAlarm_ptoCount]
    exact hpc2
  · rw [key2, setLossDetectionAlarm_ackOut, hpto2, hrtt2, hpc2]

/-- Witness for claim C6: the PTO firing from stateC6 (two retransmittable
ApplicationData packets plus one that is not) at now = 1000. -/
theorem claim_C6_witness :
    nodupMaps stateC6 ∧ placedMaps stateC6 ∧ cryptoInv stateC6 ∧
      stateC6.cryptoOutstanding = 0 ∧ stateC6.lossTime = ⟨0, 0, 0⟩ ∧
      ((alarmFired 1000 stateC6).1 =
        ((retrEntries (stateC6.sentPackets.get .initial ++
            stateC6.sentPackets.get .handshake ++
            stateC6.sentPackets.get .applicationData)).take 2).map
          (fun kv => LDEvent.retransmitPacketEvent kv.2.packet) ∧
        (alarmFired 1000 stateC6).1.length ≤ 2 ∧
        (alarmFired 1000 stateC6).2.ptoCount = stateC6.ptoCount + 1 ∧
        (alarmFired 1000 stateC6).2.lossDetectionAlarm =
          (if (alarmFired 1000 stateC6).2.ackElicitingPacketsOutstanding = 0 then none
           else some (1000 + max (stateC6.rtt.smoothedRtt + stateC6.rtt.rttVar * 4 +
             stateC6.rtt.maxAckDelay) kGranularity * 2 ^ (stateC6.ptoCount + 1)))) :=
  ⟨by decide, by decide, by decide, by decide, by decide,
    claim_C6 1000 (by decide) (by decide) (by decide) (by decide) (by decide)⟩

/-- Claim C10: in a well-formed PTO firing, every probed packet has been
removed from its space's record, the two counter invariants (the
"decremented accordingly" bookkeeping) still hold afterwards, the re-arm
cancels the alarm when no ack-eliciting packet remains outstanding, a
probed packet is never acknowledged by any later onAckReceived, and no
later detectLostPackets can declare any packet lost (its loss loop is
dead code, see claim C1). -/
theorem claim_C10 (now : ℚ) {s : LDState} (hnd : nodupMaps s) (hpl : placedMaps s)
    (hai : ackInv s) (hci : cryptoInv s) (hc0 : s.cryptoOutstanding = 0)
    (hlt : s.lossTime = ⟨0, 0, 0⟩) :
    (∀ p : BasePacket, LDEvent.retransmitPacketEvent p ∈ (alarmFired now s).1 →
        lookupSent ((alarmFired now s).2.sentPackets.get (findPacketSpaceFromPacket p))
          p.pn = none) ∧
      ackInv (alarmFired now s).2 ∧ cryptoInv (alarmFired now s).2 ∧
      ((alarmFired now s).2.ackElicitingPacketsOutstanding = 0 →
        (alarmFired now s).2.lossDetectionAlarm = none) ∧
      (∀ p : BasePacket, LDEvent.retransmitPacketEvent p ∈ (alarmFired now s).1 →
        ∀ (now2 : ℚ) (ack : AckFrame),
          LDEvent.packetAcked p ∉ (onAckReceived now2 ack (alarmFired now s).2).1) ∧
      (∀ (now2 : ℚ) (space2 : KPacketNumberSpace),
        (detectLostPackets now2 space2 (alarmFired now s).2).1 = []) := by
  have hnd' : nodupMaps { s with lossDetectionAlarm := none } := hnd
  have hpl' : placedMaps { s with lossDetectionAlarm := none } := hpl
  have key := onLossDetectionAlarm_pto now { s with lossDetectionAlarm := none } hc0 hlt
  have hem := fun (p : BasePacket)
      (hp : LDEvent.retransmitPacketEvent p ∈
        (sendPackets 2 { s with lossDetectionAlarm := none }).1) =>
    sendPackets_emitted 2 hnd' hpl' p hp
  generalize hq : sendPackets 2 { s with lossDetectionAlarm := none } = q at key hem
  have key1 : (alarmFired now s).1 = q.1 := by
    show (onLossDetectionAlarm now { s with lossDetectionAlarm := none }).1 = q.1
    rw [key]
  have key2 : (alarmFired now s).2 =
      setLossDetectionAlarm now { q.2 with ptoCount := q.2.ptoCount + 1 } := by
    show (onLossDetectionAlarm now { s with lossDetectionAlarm := none }).2 = _
    rw [key]
  have hrem : ∀ p : BasePacket, LDEvent.retransmitPacketEvent p ∈ (alarmFired now s).1 →
      lookupSent ((alarmFired now s).2.sentPackets.get (findPacketSpaceFromPacket p))
        p.pn = none := by
    intro p hp
    rw [key1] at hp
    rw [key2, setLossDetectionAlarm_sentPackets]
    exact hem p hp
  have hprs := alarmFired_pres now hnd
  have hplf : placedMaps (alarmFired now s).2 := hprs.2.2.2 hpl
  refine ⟨hrem, hprs.2.1 hai, hprs.2.2.1 hci, ?_, ?_, fun now2 space2 => rfl⟩
  · intro h0
    rw [key2] at h0 ⊢
    rw [setLossDetectionAlarm_ackOut] at h0
    exact setLossDetectionAlarm_none now _ h0
  · intro p hp now2 ack hmem
    have habs := hrem p hp
    simp only [onAckReceived, detectLostPackets_eq, List.append_nil,
      List.mem_append] at hmem
    rcases hmem with hmem | hmem
    · exact absurd (updateRtt_events_only now2 ack _ _ hmem) (by simp)
    · obtain ⟨p2, hp2, heq, hretr⟩ := ackPacketsLoop_events_acked _ _ _ hmem
      have hpp : p = p2 := by
        injection heq
      subst hpp
      obtain ⟨space, pn, spk, hl, hspk⟩ := determineNewlyAckedPackets_mem hp2
      rw [updateRtt_sentPackets] at hl
      have hl2 : lookupSent ((alarmFired now s).2.sentPackets.get space) pn = some spk :=
        hl
      have hkv := placedMaps_get hplf space _ (lookupSent_some_mem hl2)
      have hk1 : pn = spk.packet.pn := hkv.1
      have hk2 : findPacketSpaceFromPacket spk.packet = space := hkv.2
      rw [hspk] at hk1 hk2
      rw [← hk2, hk1] at hl2
      rw [habs] at hl2
      exact Option.noConfusion hl2

/-- Witness for claim C10: the PTO firing from stateC6 at now = 1000. -/
theorem claim_C10_witness :
    nodupMaps stateC6 ∧ placedMaps stateC6 ∧ ackInv stateC6 ∧ cryptoInv stateC6 ∧
      stateC6.cryptoOutstanding = 0 ∧ stateC6.lossTime = ⟨0, 0, 0⟩ ∧
      ((∀ p : BasePacket, LDEvent.retransmitPacketEvent p ∈ (alarmFired 1000 stateC6).1 →
          lookupSent ((alarmFired 1000 stateC6).2.sentPackets.get
            (findPacketSpaceFromPacket p)) p.pn = none) ∧
        ackInv (alarmFired 1000 stateC6).2 ∧ cryptoInv (alarmFired 1000 stateC6).2 ∧
        ((alarmFired 1000 stateC6).2.ackElicitingPacketsOutstanding = 0 →
          (alarmFired 1000 stateC6).2.lossDetectionAlarm = none) ∧
        (∀ p : BasePacket, LDEvent.retransmitPacketEvent p ∈ (alarmFired 1000 stateC6).1 →
          ∀ (now2 : ℚ) (ack : AckFrame),
            LDEvent.packetAcked p ∉ (onAckReceived now2 ack (alarmFired 1000 stateC6).2).1) ∧
        (∀ (now2 : ℚ) (space2 : KPacketNumberSpace),
          (detectLostPackets now2 space2 (alarmFired 1000 stateC6).2).1 = [])) :=
  ⟨by decide, by decide, by decide, by decide, by decide, by decide,
    claim_C10 1000 (by decide) (by decide) (by decide) (by decide) (by decide) (by decide)⟩
